import Mathlib

/-!
Verification development for the xyflow state-and-geometry engine.

The definitions below are a shallow embedding of the TypeScript source:

* element diffing and change application
  (packages/react/src/utils/changes.ts),
* user-node adoption and internal position computation
  (adoptUserNodes / updateChildNode / calculateChildXYZ),
* geometry utilities (clampPosition, clampPositionToParent, bounds),
* the resize arithmetic (xyresizer/utils.ts, getDimensionsAfterResize),
* the batching queue (BatchProvider/useQueue.ts and its node handler).

JavaScript object identity is modelled by a `ref : Nat` field on every
object-like value: two values are "the same object" exactly when their
`ref` fields coincide.  Spreading an object (`\x7b ...x \x7d`) allocates a new
identity, which is modelled by threading a counter for fresh refs.
JavaScript numbers are modelled as rationals; the infinities appearing in
bounds computations are modelled by an extended type `XRat`.
-/

namespace XYFlow

/-- An x/y coordinate pair (XYPosition in the source). -/
structure Pos where
  px : Rat
  py : Rat
deriving DecidableEq

/-- A width/height pair (Dimensions in the source). -/
structure Dims where
  dw : Rat
  dh : Rat
deriving DecidableEq

/-- The `measured` object carried by nodes; both fields may be undefined. -/
structure MeasuredDims where
  mwidth : Option Rat
  mheight : Option Rat
deriving DecidableEq

/-! ### Association lists modelling JavaScript `Map`

`setAssoc` mirrors `Map.set` (overwrite in place, append when absent) and
`getAssoc` mirrors `Map.get`. -/

def setAssoc {α : Type} : List (String × α) → String → α → List (String × α)
  | [], k, v => [(k, v)]
  | (k1, v1) :: rest, k, v =>
      if k1 = k then (k1, v) :: rest else (k1, v1) :: setAssoc rest k v

def getAssoc {α : Type} : List (String × α) → String → Option α
  | [], _ => none
  | (k1, v1) :: rest, k => if k1 = k then some v1 else getAssoc rest k

@[simp]
theorem getAssoc_nil {α : Type} (k : String) : getAssoc ([] : List (String × α)) k = none := rfl

theorem getAssoc_setAssoc_self {α : Type} (m : List (String × α)) (k : String) (v : α) :
    getAssoc (setAssoc m k v) k = some v := by
  induction m with
  | nil => simp [setAssoc, getAssoc]
  | cons hd tl ih =>
      obtain ⟨k1, v1⟩ := hd
      by_cases h : k1 = k
      · simp [setAssoc, getAssoc, h]
      · simp [setAssoc, getAssoc, h, ih]

theorem getAssoc_setAssoc_ne {α : Type} (m : List (String × α)) {k q : String} (v : α)
    (h : q ≠ k) : getAssoc (setAssoc m k v) q = getAssoc m q := by
  induction m with
  | nil => simp [setAssoc, getAssoc, Ne.symm h]
  | cons hd tl ih =>
      obtain ⟨k1, v1⟩ := hd
      by_cases h1 : k1 = k
      · subst h1
        simp [setAssoc, getAssoc, Ne.symm h]
      · by_cases h2 : k1 = q
        · simp [setAssoc, getAssoc, h1, h2, h]
        · simp [setAssoc, getAssoc, h1, h2, ih]

theorem getAssoc_setAssoc_isSome {α : Type} (m : List (String × α)) (k q : String) (v : α)
    (h : (getAssoc m q).isSome) : (getAssoc (setAssoc m k v) q).isSome := by
  by_cases hq : q = k
  · subst hq; simp [getAssoc_setAssoc_self]
  · rwa [getAssoc_setAssoc_ne m v hq]

/-! ### Elements and changes (packages/react/src/utils/changes.ts)

`Elem` models a node or edge as far as change application observes it:
the fields read or written by `applyChange` plus the id and the object
identity `ref`. -/

structure Elem where
  ref : Nat
  id : String
  selected : Option Bool
  position : Pos
  dragging : Option Bool
  measured : Option MeasuredDims
  width : Option Rat
  height : Option Rat
  resizing : Option Bool
deriving DecidableEq

/-- The typed change records handled by applyChanges / getElementsDiffChanges. -/
inductive Change where
  | add (item : Elem) (index : Option Nat)
  | remove (id : String)
  | replace (id : String) (item : Elem)
  | select (id : String) (selected : Bool)
  | position (id : String) (position : Option Pos) (dragging : Option Bool)
  | dimensions (id : String) (dimensions : Option Dims) (setAttributes : Bool)
      (resizing : Option Bool)
deriving DecidableEq

/-- One step of the first loop of `applyChanges`: an `add` change goes to the
`addItemChanges` list; a `remove`/`replace` change resets the bucket for its id
to the singleton; any other change is pushed onto the existing bucket. -/
def changesMapStep (acc : List (String × List Change) × List Change) (c : Change) :
    List (String × List Change) × List Change :=
  match c with
  | Change.add _ _ => (acc.1, acc.2 ++ [c])
  | Change.remove i => (setAssoc acc.1 i [c], acc.2)
  | Change.replace i _ => (setAssoc acc.1 i [c], acc.2)
  | Change.select i _ =>
      (match getAssoc acc.1 i with
       | some l => (setAssoc acc.1 i (l ++ [c]), acc.2)
       | none => (setAssoc acc.1 i [c], acc.2))
  | Change.position i _ _ =>
      (match getAssoc acc.1 i with
       | some l => (setAssoc acc.1 i (l ++ [c]), acc.2)
       | none => (setAssoc acc.1 i [c], acc.2))
  | Change.dimensions i _ _ _ =>
      (match getAssoc acc.1 i with
       | some l => (setAssoc acc.1 i (l ++ [c]), acc.2)
       | none => (setAssoc acc.1 i [c], acc.2))

/-- First pass of `applyChanges`: partition the change list into the per-id
`changesMap` and the `addItemChanges` list. -/
def buildChangesMap (changes : List Change) :
    List (String × List Change) × List Change :=
  changes.foldl changesMapStep ([], [])

/-- The mutable single-change application (`applyChange` in the source).
`add`, `remove` and `replace` have no case in the source switch. -/
def applyChange (c : Change) (e : Elem) : Elem :=
  match c with
  | Change.select _ s => { e with selected := some s }
  | Change.position _ p d =>
      let e1 := match p with
        | some q => { e with position := q }
        | none => e
      match d with
      | some b => { e1 with dragging := some b }
      | none => e1
  | Change.dimensions _ dims setAttrs resz =>
      let e1 := match dims with
        | some d =>
            let e2 := { e with
              measured := some { mwidth := some d.dw, mheight := some d.dh } }
            if setAttrs then { e2 with width := some d.dw, height := some d.dh } else e2
        | none => e
      match resz with
      | some b => { e1 with resizing := some b }
      | none => e1
  | _ => e

/-- JavaScript `Array.splice(index, 0, a)`: insert at `index`, clamping an
out-of-range index to the end of the array. -/
def insertAtClamped {α : Type} : List α → Nat → α → List α
  | l, 0, a => a :: l
  | [], _ + 1, a => [a]
  | x :: xs, n + 1, a => x :: insertAtClamped xs n a

/-- One step of the element loop of `applyChanges`: no bucket passes the
element through by reference; a bucket headed by `remove` drops it; a bucket
headed by `replace` pushes a shallow copy of the replacement; otherwise each
queued change is applied to one shallow copy in arrival order. -/
def applyChangesStep (cmap : List (String × List Change)) (acc : List Elem × Nat)
    (e : Elem) : List Elem × Nat :=
  match getAssoc cmap e.id with
  | none => (acc.1 ++ [e], acc.2)
  | some bucket =>
      match bucket with
      | Change.remove _ :: _ => acc
      | Change.replace _ item :: _ => (acc.1 ++ [{ item with ref := acc.2 }], acc.2 + 1)
      | _ =>
          (acc.1 ++ [bucket.foldl (fun x c => applyChange c x) { e with ref := acc.2 }],
           acc.2 + 1)

/-- One step of the final loop of `applyChanges`: insert a shallow copy of an
added item at its recorded index, or append it when no index was recorded. -/
def applyAddsStep (acc : List Elem × Nat) (c : Change) : List Elem × Nat :=
  match c with
  | Change.add item idx =>
      (match idx with
       | some n => (insertAtClamped acc.1 n { item with ref := acc.2 }, acc.2 + 1)
       | none => (acc.1 ++ [{ item with ref := acc.2 }], acc.2 + 1))
  | _ => acc

/-- `applyChanges(changes, elements)` from the source.  `fresh` seeds the
allocator for the identities of the shallow copies the function creates. -/
def applyChanges (changes : List Change) (elements : List Elem) (fresh : Nat) :
    List Elem :=
  let built := buildChangesMap changes
  let pass2 := elements.foldl (applyChangesStep built.1) ([], fresh)
  (built.2.foldl applyAddsStep pass2).1

/-! ### The diff engine (getElementsDiffChanges) -/

/-- A value stored in the element lookup: either an internal node wrapping a
user node (`internals.userNode` present) or a plain stored element (edges). -/
inductive DiffEntry where
  | wrapped (userNode : Elem)
  | plain (e : Elem)
deriving DecidableEq

/-- `lookupItem?.internals?.userNode ?? lookupItem` from the source. -/
def storeOf : DiffEntry → Elem
  | DiffEntry.wrapped u => u
  | DiffEntry.plain e => e

/-- The `new Map(items.map((item) => [item.id, item]))` items lookup. -/
def buildItemsLookup (items : List Elem) : List (String × Elem) :=
  items.foldl (fun m i => setAssoc m i.id i) []

/-- First loop of getElementsDiffChanges: replace and add changes in items
order, with the running array index. -/
def diffPhase1 (lookup : List (String × DiffEntry)) : List Elem → Nat → List Change
  | [], _ => []
  | item :: rest, idx =>
      (match getAssoc lookup item.id with
       | some entry =>
           if (storeOf entry).ref ≠ item.ref then [Change.replace item.id item] else []
       | none => [Change.add item (some idx)]) ++ diffPhase1 lookup rest (idx + 1)

/-- Second loop of getElementsDiffChanges: remove changes for every stored id
absent from the next items, in lookup iteration order. -/
def diffPhase2 (itemsLookup : List (String × Elem)) :
    List (String × DiffEntry) → List Change
  | [] => []
  | (k, _) :: rest =>
      (match getAssoc itemsLookup k with
       | none => [Change.remove k]
       | some _ => []) ++ diffPhase2 itemsLookup rest

/-- `getElementsDiffChanges({ items, lookup })`: a reference-equality diff of
the next items against the current lookup. -/
def getElementsDiffChanges (items : List Elem) (lookup : List (String × DiffEntry)) :
    List Change :=
  diffPhase1 lookup items 0 ++ diffPhase2 (buildItemsLookup items) lookup

/-- Rebuilding a lookup from an element array, storing each element under its
id (later duplicates overwrite earlier ones, as for a JavaScript Map). -/
def buildLookup (items : List Elem) : List (String × DiffEntry) :=
  items.foldl (fun m i => setAssoc m i.id (DiffEntry.plain i)) []

/-! ### getSelectionChanges -/

/-- JavaScript strict equality between an optional boolean field and a
boolean: `undefined` is never strictly equal to a boolean. -/
def jsEqOB : Option Bool → Bool → Bool
  | some b, w => b == w
  | none, _ => false

/-- `getSelectionChanges(items, selectedIds)` (the emitted change list; the
`mutateItem` flag only mutates stored items and does not alter the output). -/
def getSelectionChanges : List (String × Elem) → List String → List Change
  | [], _ => []
  | (k, item) :: rest, selectedIds =>
      let willBeSelected := selectedIds.contains k
      (if ¬(item.selected = none ∧ willBeSelected = false) ∧
          jsEqOB item.selected willBeSelected = false then
        [Change.select item.id willBeSelected]
      else []) ++ getSelectionChanges rest selectedIds

/-! ### Lemmas about lookup building -/

theorem getAssoc_foldl_set_not_mem {α : Type} (f : Elem → α) (items : List Elem)
    (m0 : List (String × α)) {k : String} (h : k ∉ items.map Elem.id) :
    getAssoc (items.foldl (fun m i => setAssoc m i.id (f i)) m0) k = getAssoc m0 k := by
  induction items generalizing m0 with
  | nil => rfl
  | cons i rest ih =>
      simp only [List.map_cons, List.mem_cons, not_or] at h
      rw [List.foldl_cons, ih _ h.2]
      exact getAssoc_setAssoc_ne m0 (f i) h.1

theorem getAssoc_foldl_set_isSome {α : Type} (f : Elem → α) (items : List Elem)
    (m0 : List (String × α)) {k : String} (h : (getAssoc m0 k).isSome) :
    (getAssoc (items.foldl (fun m i => setAssoc m i.id (f i)) m0) k).isSome := by
  induction items generalizing m0 with
  | nil => exact h
  | cons i rest ih =>
      rw [List.foldl_cons]
      exact ih _ (getAssoc_setAssoc_isSome m0 i.id k (f i) h)

theorem getAssoc_foldl_set_isSome_of_mem {α : Type} (f : Elem → α) (items : List Elem)
    (m0 : List (String × α)) {k : String} (h : k ∈ items.map Elem.id) :
    (getAssoc (items.foldl (fun m i => setAssoc m i.id (f i)) m0) k).isSome := by
  induction items generalizing m0 with
  | nil => simp at h
  | cons i rest ih =>
      rw [List.foldl_cons]
      simp only [List.map_cons, List.mem_cons] at h
      rcases h with h | h
      · subst h
        exact getAssoc_foldl_set_isSome f rest _
          (by rw [getAssoc_setAssoc_self]; rfl)
      · exact ih _ h

theorem getAssoc_foldl_set_of_unique {α : Type} (f : Elem → α) (items : List Elem)
    (m0 : List (String × α))
    (huniq : ∀ a ∈ items, ∀ b ∈ items, a.id = b.id → a = b)
    {i : Elem} (hmem : i ∈ items) :
    getAssoc (items.foldl (fun m i => setAssoc m i.id (f i)) m0) i.id = some (f i) := by
  induction items generalizing m0 with
  | nil => simp at hmem
  | cons j rest ih =>
      rw [List.foldl_cons]
      by_cases hr : i.id ∈ rest.map Elem.id
      · obtain ⟨i2, hi2, hid2⟩ := List.exists_of_mem_map hr
        have he : i2 = i :=
          huniq i2 (List.mem_cons_of_mem _ hi2) i hmem hid2
        subst he
        exact ih _
          (fun a ha b hb => huniq a (List.mem_cons_of_mem _ ha) b (List.mem_cons_of_mem _ hb))
          hi2
      · have hij : i = j := by
          rcases List.mem_cons.mp hmem with h | h
          · exact h
          · exact absurd (List.mem_map_of_mem Elem.id h) hr
        subst hij
        rw [getAssoc_foldl_set_not_mem f rest _ hr, getAssoc_setAssoc_self]

theorem mem_keys_setAssoc {α : Type} (m : List (String × α)) (k q : String) (v : α)
    (h : q ∈ (setAssoc m k v).map Prod.fst) : q ∈ m.map Prod.fst ∨ q = k := by
  induction m with
  | nil => simpa [setAssoc] using h
  | cons hd tl ih =>
      obtain ⟨k1, v1⟩ := hd
      by_cases h1 : k1 = k
      · subst h1
        rw [setAssoc, if_pos rfl] at h
        simp only [List.map_cons, List.mem_cons] at h ⊢
        rcases h with h | h
        · exact Or.inr h
        · exact Or.inl (Or.inr h)
      · rw [setAssoc, if_neg h1] at h
        simp only [List.map_cons, List.mem_cons] at h ⊢
        rcases h with h | h
        · exact Or.inl (Or.inl h)
        · rcases ih h with h2 | h2
          · exact Or.inl (Or.inr h2)
          · exact Or.inr h2

theorem mem_keys_foldl_set {α : Type} (f : Elem → α) (items : List Elem)
    (m0 : List (String × α)) {k : String}
    (h : k ∈ ((items.foldl (fun m i => setAssoc m i.id (f i)) m0).map Prod.fst)) :
    k ∈ items.map Elem.id ∨ k ∈ m0.map Prod.fst := by
  induction items generalizing m0 with
  | nil => exact Or.inr h
  | cons i rest ih =>
      rw [List.foldl_cons] at h
      rcases ih _ h with h2 | h2
      · exact Or.inl (List.mem_cons_of_mem _ h2)
      · rcases mem_keys_setAssoc m0 i.id k (f i) h2 with h3 | h3
        · exact Or.inr h3
        · subst h3; exact Or.inl (List.mem_cons_self _ _)

/-! ### Emptiness of the diff against a reference-identical lookup -/

theorem diffPhase1_empty (lookup : List (String × DiffEntry)) (items : List Elem)
    (idx : Nat) (hstore : ∀ i ∈ items, (getAssoc lookup i.id).map storeOf = some i) :
    diffPhase1 lookup items idx = [] := by
  induction items generalizing idx with
  | nil => rfl
  | cons item rest ih =>
      have hi := hstore item (List.mem_cons_self _ _)
      rw [diffPhase1]
      cases hget : getAssoc lookup item.id with
      | none => rw [hget] at hi; simp at hi
      | some entry =>
          rw [hget] at hi
          have : storeOf entry = item := by simpa using hi
          simp [hget, this, ih (idx + 1) (fun i hi2 => hstore i (List.mem_cons_of_mem _ hi2))]

theorem diffPhase2_empty (itemsOf : List Elem) (lookup : List (String × DiffEntry))
    (hkeys : ∀ k ∈ lookup.map Prod.fst, k ∈ itemsOf.map Elem.id) :
    diffPhase2 (buildItemsLookup itemsOf) lookup = [] := by
  induction lookup with
  | nil => rfl
  | cons kv rest ih =>
      obtain ⟨k, v⟩ := kv
      have hk : k ∈ itemsOf.map Elem.id := hkeys k (List.mem_cons_self _ _)
      have hsome := getAssoc_foldl_set_isSome_of_mem (fun i => i) itemsOf [] hk
      rw [diffPhase2]
      cases hget : getAssoc (buildItemsLookup itemsOf) k with
      | none => rw [buildItemsLookup] at hget; rw [hget] at hsome; simp at hsome
      | some e =>
          simp [hget, ih (fun q hq => hkeys q (List.mem_cons_of_mem _ hq))]

theorem getElementsDiffChanges_empty (items : List Elem)
    (lookup : List (String × DiffEntry))
    (hstore : ∀ i ∈ items, (getAssoc lookup i.id).map storeOf = some i)
    (hkeys : ∀ k ∈ lookup.map Prod.fst, k ∈ items.map Elem.id) :
    getElementsDiffChanges items lookup = [] := by
  rw [getElementsDiffChanges, diffPhase1_empty lookup items 0 hstore,
    diffPhase2_empty items lookup hkeys]
  rfl

theorem applyChanges_nil (elements : List Elem) (fresh : Nat) :
    applyChanges [] elements fresh = elements := by
  have hfold : ∀ (pre : List Elem),
      elements.foldl (applyChangesStep []) (pre, fresh) = (pre ++ elements, fresh) := by
    induction elements with
    | nil => intro pre; simp
    | cons e rest ih =>
        intro pre
        rw [List.foldl_cons]
        have hstep : applyChangesStep [] (pre, fresh) e = (pre ++ [e], fresh) := rfl
        rw [hstep]
        simpa using ih (pre ++ [e])
  have h1 := congrArg Prod.fst (hfold [])
  simpa [applyChanges, buildChangesMap] using h1

/-- C1.  If every next item is reference-identical to its stored counterpart
and every stored id occurs among the next items, the diff is empty, applying
it returns the element array unchanged, and re-diffing the result against the
same items (through a lookup rebuilt from the result) is again empty. -/
theorem claim1_diff_apply_rediff_empty (items : List Elem)
    (lookup : List (String × DiffEntry)) (fresh : Nat)
    (hstore : ∀ i ∈ items, (getAssoc lookup i.id).map storeOf = some i)
    (hkeys : ∀ k ∈ lookup.map Prod.fst, k ∈ items.map Elem.id) :
    getElementsDiffChanges items lookup = [] ∧
    applyChanges (getElementsDiffChanges items lookup) items fresh = items ∧
    getElementsDiffChanges
      (applyChanges (getElementsDiffChanges items lookup) items fresh)
      (buildLookup (applyChanges (getElementsDiffChanges items lookup) items fresh)) = [] := by
  have h1 : getElementsDiffChanges items lookup = [] :=
    getElementsDiffChanges_empty items lookup hstore hkeys
  have h2 : applyChanges (getElementsDiffChanges items lookup) items fresh = items := by
    rw [h1, applyChanges_nil]
  refine ⟨h1, h2, ?_⟩
  rw [h2]
  have huniq : ∀ a ∈ items, ∀ b ∈ items, a.id = b.id → a = b := by
    intro a ha b hb hab
    have h3 := hstore a ha
    have h4 := hstore b hb
    rw [hab] at h3
    rw [h3] at h4
    injection h4
  refine getElementsDiffChanges_empty items (buildLookup items) ?_ ?_
  · intro i hi
    rw [buildLookup, getAssoc_foldl_set_of_unique (fun i => DiffEntry.plain i) items [] huniq hi]
    rfl
  · intro k hk
    rcases mem_keys_foldl_set (fun i => DiffEntry.plain i) items [] hk with h | h
    · exact h
    · simp at h

/-! ### C2: reference-inequality yields exactly one replace change -/

/-- Predicate picking out replace changes targeting a given id. -/
def isReplaceFor (k : String) : Change → Bool
  | Change.replace i _ => i == k
  | _ => false

theorem filter_isReplaceFor_diffPhase2 (k : String) (itemsLookup : List (String × Elem))
    (lookup : List (String × DiffEntry)) :
    (diffPhase2 itemsLookup lookup).filter (isReplaceFor k) = [] := by
  induction lookup with
  | nil => rfl
  | cons kv rest ih =>
      obtain ⟨k1, v⟩ := kv
      rw [diffPhase2]
      cases getAssoc itemsLookup k1 <;> simp [isReplaceFor, ih]

theorem filter_isReplaceFor_diffPhase1_not_mem (k : String)
    (lookup : List (String × DiffEntry)) (items : List Elem) (idx : Nat)
    (h : k ∉ items.map Elem.id) :
    (diffPhase1 lookup items idx).filter (isReplaceFor k) = [] := by
  induction items generalizing idx with
  | nil => rfl
  | cons item rest ih =>
      simp only [List.map_cons, List.mem_cons, not_or] at h
      rw [diffPhase1, List.filter_append]
      rw [ih (idx + 1) h.2]
      cases hget : getAssoc lookup item.id with
      | none => simp [isReplaceFor]
      | some entry =>
          by_cases hr : (storeOf entry).ref ≠ item.ref <;>
            simp [hr, isReplaceFor, Ne.symm h.1]

/-- C2.  For an item whose stored counterpart exists but is not
reference-identical to it, the diff contains exactly one replace change for
that id, and it carries the new item — no field values are compared. -/
theorem claim2_reference_inequality_single_replace (items : List Elem)
    (lookup : List (String × DiffEntry)) (item : Elem) (entry : DiffEntry)
    (hnd : (items.map Elem.id).Nodup) (hmem : item ∈ items)
    (hentry : getAssoc lookup item.id = some entry)
    (href : (storeOf entry).ref ≠ item.ref) :
    (getElementsDiffChanges items lookup).filter (isReplaceFor item.id) =
      [Change.replace item.id item] := by
  rw [getElementsDiffChanges, List.filter_append,
    filter_isReplaceFor_diffPhase2, List.append_nil]
  have main : ∀ (l : List Elem) (idx : Nat), item ∈ l → (l.map Elem.id).Nodup →
      (diffPhase1 lookup l idx).filter (isReplaceFor item.id) =
        [Change.replace item.id item] := by
    intro l
    induction l with
    | nil => intro idx h; simp at h
    | cons j rest ih =>
        intro idx hmem2 hnd2
        simp only [List.map_cons, List.nodup_cons] at hnd2
        rw [diffPhase1, List.filter_append]
        rcases List.mem_cons.mp hmem2 with hj | hj
        · subst hj
          rw [filter_isReplaceFor_diffPhase1_not_mem item.id lookup rest (idx + 1) hnd2.1]
          simp [hentry, href, isReplaceFor]
        · have hne : j.id ≠ item.id := by
            intro hcontra
            exact hnd2.1 (hcontra ▸ List.mem_map_of_mem Elem.id hj)
          rw [ih (idx + 1) hj hnd2.2]
          cases hget : getAssoc lookup j.id with
          | none => simp [isReplaceFor]
          | some entry2 =>
              by_cases hr : (storeOf entry2).ref ≠ j.ref <;>
                simp [hr, isReplaceFor, hne]
  exact main items 0 hmem hnd

/-! ### C3: remove/replace supersede, other changes accumulate -/

/-- Changes of the kinds that accumulate in a bucket (neither `add` nor
`remove` nor `replace`), targeting the given id. -/
def isAccChange (k : String) : Change → Bool
  | Change.select i _ => i == k
  | Change.position i _ _ => i == k
  | Change.dimensions i _ _ _ => i == k
  | _ => false

/-- A `remove` or `replace` change targeting the given id. -/
def isSupersedeFor (k : String) : Change → Bool
  | Change.remove i => i == k
  | Change.replace i _ => i == k
  | _ => false

/-- A changes map holding a single (possibly empty) bucket for one id. -/
def singleBucket (k : String) : List Change → List (String × List Change)
  | [] => []
  | b => [(k, b)]

theorem getAssoc_singleBucket_self (k : String) (b : List Change) (hb : b ≠ []) :
    getAssoc (singleBucket k b) k = some b := by
  match b with
  | [] => exact absurd rfl hb
  | c :: rest => simp [singleBucket, getAssoc]

theorem getAssoc_singleBucket_ne (k q : String) (b : List Change) (h : q ≠ k) :
    getAssoc (singleBucket k b) q = none := by
  match b with
  | [] => rfl
  | c :: rest => simp [singleBucket, getAssoc, Ne.symm h]

theorem setAssoc_singleBucket (k : String) (b v : List Change) (hv : v ≠ []) :
    setAssoc (singleBucket k b) k v = singleBucket k v := by
  match v, hv with
  | w :: ws, _ =>
      match b with
      | [] => rfl
      | c :: rest => simp [singleBucket, setAssoc]

theorem changesMapStep_acc (k : String) (b : List Change) (a : List Change)
    (c : Change) (hc : isAccChange k c = true) :
    changesMapStep (singleBucket k b, a) c = (singleBucket k (b ++ [c]), a) := by
  cases c with
  | add item idx => simp [isAccChange] at hc
  | remove i => simp [isAccChange] at hc
  | replace i item => simp [isAccChange] at hc
  | select i s =>
      have hik : i = k := by simpa [isAccChange] using hc
      subst hik
      cases b with
      | nil => simp [changesMapStep, singleBucket, setAssoc, getAssoc]
      | cons c2 rest => simp [changesMapStep, singleBucket, setAssoc, getAssoc]
  | position i p d =>
      have hik : i = k := by simpa [isAccChange] using hc
      subst hik
      cases b with
      | nil => simp [changesMapStep, singleBucket, setAssoc, getAssoc]
      | cons c2 rest => simp [changesMapStep, singleBucket, setAssoc, getAssoc]
  | dimensions i dd sa rz =>
      have hik : i = k := by simpa [isAccChange] using hc
      subst hik
      cases b with
      | nil => simp [changesMapStep, singleBucket, setAssoc, getAssoc]
      | cons c2 rest => simp [changesMapStep, singleBucket, setAssoc, getAssoc]

theorem foldl_changesMapStep_acc (k : String) (l : List Change)
    (hl : ∀ c ∈ l, isAccChange k c = true) :
    ∀ (b : List Change) (a : List Change),
      l.foldl changesMapStep (singleBucket k b, a) = (singleBucket k (b ++ l), a) := by
  induction l with
  | nil => intro b a; simp
  | cons c rest ih =>
      intro b a
      rw [List.foldl_cons, changesMapStep_acc k b a c (hl c (List.mem_cons_self _ _))]
      rw [ih (fun c2 h2 => hl c2 (List.mem_cons_of_mem _ h2)) (b ++ [c]) a]
      simp

theorem changesMapStep_supersede (k : String) (m : List (String × List Change))
    (a : List Change) (r : Change) (hr : isSupersedeFor k r = true) :
    changesMapStep (m, a) r = (setAssoc m k [r], a) := by
  cases r with
  | remove i =>
      have hik : i = k := by simpa [isSupersedeFor] using hr
      subst hik; rfl
  | replace i item =>
      have hik : i = k := by simpa [isSupersedeFor] using hr
      subst hik; rfl
  | add item idx => simp [isSupersedeFor] at hr
  | select i s => simp [isSupersedeFor] at hr
  | position i p d => simp [isSupersedeFor] at hr
  | dimensions i dd sa rz => simp [isSupersedeFor] at hr

theorem buildChangesMap_supersede (k : String) (r : Change) (pre post : List Change)
    (hr : isSupersedeFor k r = true)
    (hpre : ∀ c ∈ pre, isAccChange k c = true)
    (hpost : ∀ c ∈ post, isAccChange k c = true) :
    buildChangesMap (pre ++ r :: post) = (singleBucket k (r :: post), []) := by
  rw [buildChangesMap, List.foldl_append]
  have h0 : (([], []) : List (String × List Change) × List Change) =
      (singleBucket k [], []) := rfl
  rw [h0, foldl_changesMapStep_acc k pre hpre [] [], List.foldl_cons,
    changesMapStep_supersede k _ _ r hr, setAssoc_singleBucket k _ [r] (by simp),
    foldl_changesMapStep_acc k post hpost [r] []]
  rfl

theorem buildChangesMap_acc (k : String) (cs : List Change)
    (hcs : ∀ c ∈ cs, isAccChange k c = true) :
    buildChangesMap cs = (singleBucket k cs, []) := by
  rw [buildChangesMap]
  have h0 : (([], []) : List (String × List Change) × List Change) =
      (singleBucket k [], []) := rfl
  rw [h0, foldl_changesMapStep_acc k cs hcs [] []]
  rfl

/-- The per-id effect claimed for accumulating changes: every element whose id
matches gets one shallow copy to which all changes are applied in order;
other elements pass through by reference. -/
def accumApplied (cs : List Change) (k : String) : List Elem → Nat → List Elem
  | [], _ => []
  | e :: es, n =>
      if e.id = k then
        (cs.foldl (fun x c => applyChange c x) { e with ref := n }) :: accumApplied cs k es (n + 1)
      else e :: accumApplied cs k es n

theorem applyChangesStep_superseded (k : String) (r : Change) (post : List Change)
    (hr : isSupersedeFor k r = true) (st : List Elem × Nat) (e : Elem) :
    applyChangesStep (singleBucket k (r :: post)) st e =
      applyChangesStep (singleBucket k [r]) st e := by
  by_cases hk : e.id = k
  · rw [applyChangesStep, applyChangesStep, hk,
      getAssoc_singleBucket_self k (r :: post) (by simp),
      getAssoc_singleBucket_self k [r] (by simp)]
    cases r with
    | remove i => rfl
    | replace i item => rfl
    | add item idx => simp [isSupersedeFor] at hr
    | select i s => simp [isSupersedeFor] at hr
    | position i p d => simp [isSupersedeFor] at hr
    | dimensions i dd sa rz => simp [isSupersedeFor] at hr
  · rw [applyChangesStep, applyChangesStep,
      getAssoc_singleBucket_ne k e.id (r :: post) hk,
      getAssoc_singleBucket_ne k e.id [r] hk]

theorem foldl_applyChangesStep_acc (k : String) (c0 : Change) (cs : List Change)
    (hc0 : isAccChange k c0 = true) (elements : List Elem) :
    ∀ (acc : List Elem) (n : Nat),
      (elements.foldl (applyChangesStep (singleBucket k (c0 :: cs))) (acc, n)).1 =
        acc ++ accumApplied (c0 :: cs) k elements n := by
  induction elements with
  | nil => intro acc n; simp [accumApplied]
  | cons e es ih =>
      intro acc n
      rw [List.foldl_cons]
      by_cases hk : e.id = k
      · have hstep : applyChangesStep (singleBucket k (c0 :: cs)) (acc, n) e =
            (acc ++ [(c0 :: cs).foldl (fun x c => applyChange c x) { e with ref := n }],
             n + 1) := by
          rw [applyChangesStep, hk, getAssoc_singleBucket_self k (c0 :: cs) (by simp)]
          cases c0 with
          | remove i => simp [isAccChange] at hc0
          | replace i item => simp [isAccChange] at hc0
          | add item idx => simp [isAccChange] at hc0
          | select i s => rfl
          | position i p d => rfl
          | dimensions i dd sa rz => rfl
        rw [hstep, ih _ (n + 1), accumApplied, if_pos hk]
        simp
      · have hstep : applyChangesStep (singleBucket k (c0 :: cs)) (acc, n) e =
            (acc ++ [e], n) := by
          rw [applyChangesStep, getAssoc_singleBucket_ne k e.id (c0 :: cs) hk]
        rw [hstep, ih _ n, accumApplied, if_neg hk]
        simp

/-- C3.  In applyChanges, a `remove` or `replace` change for an id discards
every other accumulating change queued for that id, whether it arrives before
or after it; and a batch consisting only of accumulating changes for one id is
applied in arrival order to a single shallow copy of each matching element. -/
theorem claim3_supersede_and_accumulate (elements : List Elem) (fresh : Nat)
    (k : String) (r : Change) (pre post cs : List Change) :
    (isSupersedeFor k r = true →
      (∀ c ∈ pre, isAccChange k c = true) →
      (∀ c ∈ post, isAccChange k c = true) →
      applyChanges (pre ++ r :: post) elements fresh = applyChanges [r] elements fresh) ∧
    (cs ≠ [] → (∀ c ∈ cs, isAccChange k c = true) →
      applyChanges cs elements fresh = accumApplied cs k elements fresh) := by
  constructor
  · intro hr hpre hpost
    have hb1 := buildChangesMap_supersede k r pre post hr hpre hpost
    have hb2 : buildChangesMap [r] = (singleBucket k [r], []) := by
      have := buildChangesMap_supersede k r [] [] hr (by simp) (by simp)
      simpa using this
    have hfun : applyChangesStep (singleBucket k (r :: post)) =
        applyChangesStep (singleBucket k [r]) := by
      funext st e
      exact applyChangesStep_superseded k r post hr st e
    rw [applyChanges, applyChanges, hb1, hb2]
    simp only [hfun]
  · intro hne hcs
    match cs, hne with
    | c0 :: cs2, _ =>
        have hb := buildChangesMap_acc k (c0 :: cs2) hcs
        rw [applyChanges, hb]
        simp only [List.foldl_nil]
        exact foldl_applyChangesStep_acc k c0 cs2 (hcs c0 (List.mem_cons_self _ _)) elements [] fresh

/-! ### C4: first-touch suppression in getSelectionChanges -/

/-- Predicate picking out select changes targeting a given id. -/
def isSelectFor (k : String) : Change → Bool
  | Change.select i _ => i == k
  | _ => false

theorem filter_isSelectFor_not_mem (k : String) (items : List (String × Elem))
    (sel : List String) (hkeys : ∀ p ∈ items, p.1 = p.2.id)
    (h : k ∉ items.map Prod.fst) :
    (getSelectionChanges items sel).filter (isSelectFor k) = [] := by
  induction items with
  | nil => rfl
  | cons p rest ih =>
      obtain ⟨k1, item⟩ := p
      simp only [List.map_cons, List.mem_cons, not_or] at h
      have hid : k1 = item.id := hkeys (k1, item) (List.mem_cons_self _ _)
      rw [getSelectionChanges, List.filter_append,
        ih (fun q hq => hkeys q (List.mem_cons_of_mem _ hq)) h.2, List.append_nil]
      by_cases hcond : ¬(item.selected = none ∧ (sel.contains k1) = false) ∧
          jsEqOB item.selected (sel.contains k1) = false
      · rw [if_pos hcond]
        simp [isSelectFor, hid ▸ Ne.symm h.1]
      · rw [if_neg hcond]
        rfl

/-- C4.  An item never touched by selection (`selected` undefined) that a
target selection excludes produces no select change; an item explicitly
selected (`selected = true`) that the target selection excludes produces
exactly the select change setting `selected` to false. -/
theorem claim4_selection_suppression (items : List (String × Elem)) (sel : List String)
    (k : String) (i : Elem)
    (hkeys : ∀ p ∈ items, p.1 = p.2.id)
    (hnd : (items.map Prod.fst).Nodup)
    (hmem : (k, i) ∈ items)
    (hnot : sel.contains k = false) :
    (i.selected = none →
      (getSelectionChanges items sel).filter (isSelectFor k) = []) ∧
    (i.selected = some true →
      (getSelectionChanges items sel).filter (isSelectFor k) = [Change.select k false]) := by
  induction items with
  | nil => simp at hmem
  | cons p rest ih =>
      obtain ⟨k1, item⟩ := p
      simp only [List.map_cons, List.nodup_cons] at hnd
      have hid : k1 = item.id := hkeys (k1, item) (List.mem_cons_self _ _)
      rcases List.mem_cons.mp hmem with hhead | htail
      · have hk1 : k1 = k := by
          injection hhead with h1 h2
          exact h1.symm
        have hit : item = i := by
          injection hhead with h1 h2
          exact h2.symm
        subst hk1
        subst hit
        have htailfilter :
            (getSelectionChanges rest sel).filter (isSelectFor k1) = [] :=
          filter_isSelectFor_not_mem k1 rest sel
            (fun q hq => hkeys q (List.mem_cons_of_mem _ hq)) hnd.1
        constructor
        · intro hsel
          rw [getSelectionChanges, List.filter_append, htailfilter, List.append_nil]
          rw [if_neg]
          · rfl
          · intro hcond
            exact hcond.1 ⟨hsel, hnot⟩
        · intro hsel
          have hcond : ¬(item.selected = none ∧ (sel.contains k1) = false) ∧
              jsEqOB item.selected (sel.contains k1) = false := by
            constructor
            · intro hcontra
              rw [hsel] at hcontra
              exact Option.noConfusion hcontra.1
            · rw [hsel, hnot]
              rfl
          rw [getSelectionChanges, List.filter_append, htailfilter, List.append_nil]
          rw [if_pos hcond, hnot]
          simp [isSelectFor, hid]
      · have hk1 : k1 ≠ k := by
          intro hcontra
          exact hnd.1 (hcontra ▸ List.mem_map_of_mem Prod.fst htail)
        have ihres := ih (fun q hq => hkeys q (List.mem_cons_of_mem _ hq)) hnd.2 htail
        have hhead : ∀ l : List Change,
            (getSelectionChanges ((k1, item) :: rest) sel).filter (isSelectFor k) =
              (getSelectionChanges rest sel).filter (isSelectFor k) := by
          intro _
          rw [getSelectionChanges, List.filter_append]
          by_cases hcond : ¬(item.selected = none ∧ (sel.contains k1) = false) ∧
              jsEqOB item.selected (sel.contains k1) = false
          · rw [if_pos hcond]
            simp [isSelectFor, hid ▸ hk1]
          · rw [if_neg hcond]
            rfl
        constructor
        · intro hsel
          rw [hhead [], ihres.1 hsel]
        · intro hsel
          rw [hhead [], ihres.2 hsel]

/-! ### Concrete sample data for witnesses -/

/-- A sample element with id a. -/
def elemA : Elem :=
  { ref := 0, id := "a", selected := none, position := { px := 0, py := 0 },
    dragging := none, measured := none, width := none, height := none, resizing := none }

/-- A sample element with id b, explicitly selected. -/
def elemB : Elem :=
  { ref := 1, id := "b", selected := some true, position := { px := 3, py := 4 },
    dragging := none, measured := none, width := none, height := none, resizing := none }

/-- A value-equal but reference-distinct copy of elemA. -/
def elemAClone : Elem := { elemA with ref := 5 }

theorem claim1_witness :
    (∀ i ∈ [elemA, elemB],
      (getAssoc (buildLookup [elemA, elemB]) i.id).map storeOf = some i) ∧
    (∀ k ∈ (buildLookup [elemA, elemB]).map Prod.fst, k ∈ [elemA, elemB].map Elem.id) ∧
    (getElementsDiffChanges [elemA, elemB] (buildLookup [elemA, elemB]) = [] ∧
     applyChanges (getElementsDiffChanges [elemA, elemB] (buildLookup [elemA, elemB]))
       [elemA, elemB] 10 = [elemA, elemB] ∧
     getElementsDiffChanges
       (applyChanges (getElementsDiffChanges [elemA, elemB] (buildLookup [elemA, elemB]))
         [elemA, elemB] 10)
       (buildLookup
         (applyChanges (getElementsDiffChanges [elemA, elemB] (buildLookup [elemA, elemB]))
           [elemA, elemB] 10)) = []) :=
  ⟨by decide, by decide,
    claim1_diff_apply_rediff_empty [elemA, elemB] (buildLookup [elemA, elemB]) 10
      (by decide) (by decide)⟩

theorem claim2_witness :
    (([elemA].map Elem.id).Nodup ∧ elemA ∈ [elemA] ∧
      getAssoc [("a", DiffEntry.wrapped elemAClone)] elemA.id =
        some (DiffEntry.wrapped elemAClone) ∧
      (storeOf (DiffEntry.wrapped elemAClone)).ref ≠ elemA.ref) ∧
    (getElementsDiffChanges [elemA] [("a", DiffEntry.wrapped elemAClone)]).filter
        (isReplaceFor elemA.id) = [Change.replace elemA.id elemA] :=
  ⟨⟨by decide, by decide, by decide, by decide⟩,
    claim2_reference_inequality_single_replace [elemA]
      [("a", DiffEntry.wrapped elemAClone)] elemA (DiffEntry.wrapped elemAClone)
      (by decide) (by decide) (by decide) (by decide)⟩

theorem claim3_witness :
    (isSupersedeFor "a" (Change.remove "a") = true ∧
      (∀ c ∈ [Change.select "a" true], isAccChange "a" c = true) ∧
      (∀ c ∈ [Change.position "a" none (some true)], isAccChange "a" c = true) ∧
      ([Change.select "a" true] : List Change) ≠ []) ∧
    applyChanges ([Change.select "a" true] ++
        Change.remove "a" :: [Change.position "a" none (some true)]) [elemA, elemB] 7 =
      applyChanges [Change.remove "a"] [elemA, elemB] 7 ∧
    applyChanges [Change.select "a" true] [elemA, elemB] 7 =
      accumApplied [Change.select "a" true] "a" [elemA, elemB] 7 :=
  ⟨⟨by decide, by decide, by decide, by decide⟩,
    (claim3_supersede_and_accumulate [elemA, elemB] 7 "a" (Change.remove "a")
        [Change.select "a" true] [Change.position "a" none (some true)]
        [Change.select "a" true]).1
      (by decide) (by decide) (by decide),
    (claim3_supersede_and_accumulate [elemA, elemB] 7 "a" (Change.remove "a")
        [Change.select "a" true] [Change.position "a" none (some true)]
        [Change.select "a" true]).2
      (by decide) (by decide)⟩

theorem claim4_witness :
    ((∀ p ∈ [("a", elemA), ("b", elemB)], p.1 = p.2.id) ∧
      (([("a", elemA), ("b", elemB)].map Prod.fst).Nodup) ∧
      ("a", elemA) ∈ [("a", elemA), ("b", elemB)] ∧
      ("b", elemB) ∈ [("a", elemA), ("b", elemB)] ∧
      ([] : List String).contains "a" = false ∧
      ([] : List String).contains "b" = false ∧
      elemA.selected = none ∧ elemB.selected = some true) ∧
    (getSelectionChanges [("a", elemA), ("b", elemB)] []).filter (isSelectFor "a") = [] ∧
    (getSelectionChanges [("a", elemA), ("b", elemB)] []).filter (isSelectFor "b") =
      [Change.select "b" false] :=
  ⟨⟨by decide, by decide, by decide, by decide, by decide, by decide, by decide, by decide⟩,
    (claim4_selection_suppression [("a", elemA), ("b", elemB)] [] "a" elemA
        (by decide) (by decide) (by decide) (by decide)).1 (by decide),
    (claim4_selection_suppression [("a", elemA), ("b", elemB)] [] "b" elemB
        (by decide) (by decide) (by decide) (by decide)).2 (by decide)⟩

/-! ### Node adoption (adoptUserNodes / updateChildNode / calculateChildXYZ)

Coordinate extents are modelled with optional bounds: `none` stands for the
infinite bound of `infiniteExtent`.  JavaScript truthiness of `parentId`
(the empty string is falsy) is modelled by `truthyId`. -/

/-- A coordinate extent; a missing bound is the corresponding infinity. -/
structure OptExtent where
  lox : Option Rat
  loy : Option Rat
  hix : Option Rat
  hiy : Option Rat
deriving DecidableEq

/-- infiniteExtent from the source: no finite bound in any direction. -/
def infiniteExtent : OptExtent := { lox := none, loy := none, hix := none, hiy := none }

/-- A node's `extent` field: absent, the literal parent mode, or coordinates. -/
inductive NodeExtent where
  | unset
  | parent
  | coords (e : OptExtent)
deriving DecidableEq

/-- A user-facing node, with the fields the adoption engine reads. -/
structure UserNode where
  ref : Nat
  id : String
  position : Pos
  parentId : Option String
  origin : Option (Rat × Rat)
  extent : NodeExtent
  zIndex : Option Rat
  selected : Option Bool
  measured : Option MeasuredDims
  width : Option Rat
  height : Option Rat
  initialWidth : Option Rat
  initialHeight : Option Rat
deriving DecidableEq

/-- JavaScript truthiness of an optional string id (empty string is falsy). -/
def truthyId : Option String → Bool
  | some s => !(s == "")
  | none => false

/-- `getNodeDimensions`: measured width/height, falling back to the explicit
then the initial dimension, defaulting to zero. -/
def getNodeDimensionsU (n : UserNode) : Dims :=
  { dw := (((n.measured.bind MeasuredDims.mwidth).orElse fun _ => n.width).orElse
      fun _ => n.initialWidth).getD 0,
    dh := (((n.measured.bind MeasuredDims.mheight).orElse fun _ => n.height).orElse
      fun _ => n.initialHeight).getD 0 }

/-- `getNodePositionWithOrigin`: the position shifted by origin times size. -/
def getNodePositionWithOrigin (n : UserNode) (nodeOrigin : Rat × Rat) : Pos :=
  let d := getNodeDimensionsU n
  let o := n.origin.getD nodeOrigin
  { px := n.position.px - d.dw * o.1, py := n.position.py - d.dh * o.2 }

/-- `clamp(val, min, max) = Math.min(Math.max(val, min), max)` with optional
(possibly infinite) bounds. -/
def clampNum (v : Rat) (lo hi : Option Rat) : Rat :=
  let v1 := match lo with
    | some l => max v l
    | none => v
  match hi with
  | some h => min v1 h
  | none => v1

/-- `clampPosition(position, extent, dimensions)` from the source: each axis is
clamped between the lower bound and the upper bound minus the size. -/
def clampPosition (p : Pos) (extent : OptExtent) (d : Dims) : Pos :=
  { px := clampNum p.px extent.lox (extent.hix.map fun h => h - d.dw),
    py := clampNum p.py extent.loy (extent.hiy.map fun h => h - d.dh) }

/-- An internal node: the spread copy of the user node plus `internals`
(absolute position, z, handle bounds presence, and the wrapped user node).
`ref` is the object identity of the internal node itself. -/
structure InternalNode where
  ref : Nat
  node : UserNode
  absX : Rat
  absY : Rat
  handleBounds : Bool
  z : Rat
  userNode : UserNode
deriving DecidableEq

/-- `calculateZ(node, selectedNodeZ)`. -/
def calculateZ (n : UserNode) (selectedNodeZ : Rat) : Rat :=
  (match n.zIndex with
   | some z => z
   | none => 0) + (if n.selected = some true then selectedNodeZ else 0)

/-- `clampPositionToParent(childPosition, childDimensions, parent)`. -/
def clampPositionToParent (childPosition : Pos) (childDimensions : Dims)
    (parent : InternalNode) : Pos :=
  let pd := getNodeDimensionsU parent.node
  clampPosition childPosition
    { lox := some parent.absX, loy := some parent.absY,
      hix := some (parent.absX + pd.dw), hiy := some (parent.absY + pd.dh) }
    childDimensions

/-- The merged adoption options record. -/
structure AdoptOptions where
  nodeOrigin : Rat × Rat
  nodeExtent : OptExtent
  elevateNodesOnSelect : Bool
  checkEquality : Bool

/-- The defaults of adoptUserNodesDefaultOptions. -/
def defaultAdoptOptions : AdoptOptions :=
  { nodeOrigin := (0, 0), nodeExtent := infiniteExtent,
    elevateNodesOnSelect := true, checkEquality := true }

/-- `calculateChildXYZ(childNode, parentNode, nodeOrigin, nodeExtent,
selectedNodeZ)`: clamp the child-relative position into its own coordinate
extent, shift by the parent's absolute position, clamp into the global extent,
then (for parent extent) clamp into the parent rectangle; z is the max of
parent z and child z. -/
def calculateChildXYZ (childNode parentNode : InternalNode) (nodeOrigin : Rat × Rat)
    (nodeExtent : OptExtent) (selectedNodeZ : Rat) : Rat × Rat × Rat :=
  let childDimensions := getNodeDimensionsU childNode.node
  let positionWithOrigin := getNodePositionWithOrigin childNode.node nodeOrigin
  let clampedPosition := match childNode.node.extent with
    | NodeExtent.coords e => clampPosition positionWithOrigin e childDimensions
    | _ => positionWithOrigin
  let absolutePosition := clampPosition
    { px := parentNode.absX + clampedPosition.px, py := parentNode.absY + clampedPosition.py }
    nodeExtent childDimensions
  let clampedToParent := if childNode.node.extent = NodeExtent.parent
    then clampPositionToParent absolutePosition childDimensions parentNode
    else absolutePosition
  let childZ := calculateZ childNode.node selectedNodeZ
  let parentZ := parentNode.z
  (clampedToParent.px, clampedToParent.py, if parentZ > childZ then parentZ else childZ)

/-- The mutable state threaded through adoption: the node lookup, the parent
lookup, and the allocator for fresh object identities. -/
structure AdoptState where
  lookup : List (String × InternalNode)
  parentLookup : List (String × List (String × InternalNode))
  fresh : Nat

/-- `updateParentLookup(node, parentLookup)`. -/
def updateParentLookup (node : InternalNode)
    (parentLookup : List (String × List (String × InternalNode))) :
    List (String × List (String × InternalNode)) :=
  match node.node.parentId with
  | none => parentLookup
  | some pid =>
      if pid = "" then parentLookup
      else
        match getAssoc parentLookup pid with
        | some childNodes => setAssoc parentLookup pid (setAssoc childNodes node.node.id node)
        | none => setAssoc parentLookup pid [(node.node.id, node)]

/-- `updateChildNode(node, nodeLookup, parentLookup, options)`: a missing
parent leaves everything unchanged (warn and return); otherwise recompute the
child x/y/z and replace the lookup entry with a fresh object exactly when the
position or z changed. -/
def updateChildNodeS (opts : AdoptOptions) (st : AdoptState) (node : InternalNode) :
    AdoptState :=
  match node.node.parentId with
  | none => st
  | some pid =>
      match getAssoc st.lookup pid with
      | none => st
      | some parentNode =>
          let pl2 := updateParentLookup node st.parentLookup
          let xyz := calculateChildXYZ node parentNode opts.nodeOrigin opts.nodeExtent
            (if opts.elevateNodesOnSelect then 1000 else 0)
          if xyz.1 ≠ node.absX ∨ xyz.2.1 ≠ node.absY ∨ xyz.2.2 ≠ node.z then
            { lookup := setAssoc st.lookup node.node.id
                { node with ref := st.fresh, absX := xyz.1, absY := xyz.2.1, z := xyz.2.2 },
              parentLookup := pl2,
              fresh := st.fresh + 1 }
          else { st with parentLookup := pl2 }

/-- The `measured` object written into a freshly built internal node:
`measured: \x7b width: userNode.measured?.width, height: userNode.measured?.height \x7d`. -/
def normalizedMeasured (u : UserNode) : MeasuredDims :=
  { mwidth := u.measured.bind MeasuredDims.mwidth,
    mheight := u.measured.bind MeasuredDims.mheight }

/-- The per-node body of the adoptUserNodes loop, before the parentId check:
reuse the previous internal node when `checkEquality` holds and the user node
is reference-identical to the wrapped one, else construct a fresh internal
node; either entry is written to the lookup. -/
def adoptEntry (opts : AdoptOptions) (prevLookup : List (String × InternalNode))
    (st : AdoptState) (u : UserNode) : InternalNode × AdoptState :=
  let prevNode := getAssoc prevLookup u.id
  let reused : Option InternalNode :=
    match prevNode with
    | some pn => if opts.checkEquality = true ∧ u.ref = pn.userNode.ref then some pn else none
    | none => none
  match reused with
  | some pn => (pn, { st with lookup := setAssoc st.lookup u.id pn })
  | none =>
      let positionWithOrigin := getNodePositionWithOrigin u opts.nodeOrigin
      let extent := match u.extent with
        | NodeExtent.coords e => e
        | _ => opts.nodeExtent
      let clampedPosition := clampPosition positionWithOrigin extent (getNodeDimensionsU u)
      let inode : InternalNode :=
        { ref := st.fresh,
          node := { u with measured := some (normalizedMeasured u) },
          absX := clampedPosition.px,
          absY := clampedPosition.py,
          handleBounds := if u.measured = none then false
            else match prevNode with
              | some pn => pn.handleBounds
              | none => false,
          z := calculateZ u (if opts.elevateNodesOnSelect then 1000 else 0),
          userNode := u }
      (inode, { st with lookup := setAssoc st.lookup u.id inode, fresh := st.fresh + 1 })

/-- One full iteration of the adoptUserNodes loop. -/
def adoptStep (opts : AdoptOptions) (prevLookup : List (String × InternalNode))
    (st : AdoptState) (u : UserNode) : AdoptState :=
  let r := adoptEntry opts prevLookup st u
  if truthyId u.parentId then updateChildNodeS opts r.2 r.1 else r.2

/-- `adoptUserNodes(nodes, nodeLookup, parentLookup, options)`: the previous
lookup is copied aside, both lookups are cleared, and every user node is
adopted in array order. -/
def adoptUserNodes (nodes : List UserNode) (prevLookup : List (String × InternalNode))
    (opts : AdoptOptions) (fresh : Nat) : AdoptState :=
  nodes.foldl (adoptStep opts prevLookup)
    { lookup := [], parentLookup := [], fresh := fresh }

/-! ### Lemmas about the adoption fold -/

theorem getAssoc_mem {α : Type} {m : List (String × α)} {k : String} {v : α}
    (h : getAssoc m k = some v) : (k, v) ∈ m := by
  induction m with
  | nil => simp [getAssoc] at h
  | cons hd tl ih =>
      obtain ⟨k1, v1⟩ := hd
      rw [getAssoc] at h
      by_cases hk : k1 = k
      · rw [if_pos hk] at h
        injection h with h2
        subst hk
        subst h2
        exact List.mem_cons_self _ _
      · rw [if_neg hk] at h
        exact List.mem_cons_of_mem _ (ih h)

/-- Key discipline for a node lookup: every stored internal node carries the id
it is keyed under (true of every lookup the adoption engine produces). -/
def lookupWF (m : List (String × InternalNode)) : Prop :=
  ∀ p ∈ m, p.2.node.id = p.1

theorem lookupWF_get {m : List (String × InternalNode)} (h : lookupWF m)
    {k : String} {v : InternalNode} (hg : getAssoc m k = some v) : v.node.id = k :=
  h (k, v) (getAssoc_mem hg)

theorem adoptEntry_lookup_eq (opts : AdoptOptions) (prev : List (String × InternalNode))
    (st : AdoptState) (u : UserNode) :
    (adoptEntry opts prev st u).2.lookup =
      setAssoc st.lookup u.id (adoptEntry opts prev st u).1 := by
  cases hprev : getAssoc prev u.id with
  | none => simp [adoptEntry, hprev]
  | some pn =>
      by_cases hc : opts.checkEquality = true ∧ u.ref = pn.userNode.ref
      · simp [adoptEntry, hprev, hc]
      · simp [adoptEntry, hprev, hc]

theorem adoptEntry_parentLookup_eq (opts : AdoptOptions)
    (prev : List (String × InternalNode)) (st : AdoptState) (u : UserNode) :
    (adoptEntry opts prev st u).2.parentLookup = st.parentLookup := by
  cases hprev : getAssoc prev u.id with
  | none => simp [adoptEntry, hprev]
  | some pn =>
      by_cases hc : opts.checkEquality = true ∧ u.ref = pn.userNode.ref
      · simp [adoptEntry, hprev, hc]
      · simp [adoptEntry, hprev, hc]

theorem adoptEntry_node_id (opts : AdoptOptions) (prev : List (String × InternalNode))
    (st : AdoptState) (u : UserNode) (hwf : lookupWF prev) :
    (adoptEntry opts prev st u).1.node.id = u.id := by
  cases hprev : getAssoc prev u.id with
  | none => simp [adoptEntry, hprev]
  | some pn =>
      by_cases hc : opts.checkEquality = true ∧ u.ref = pn.userNode.ref
      · simp [adoptEntry, hprev, hc, lookupWF_get hwf hprev]
      · simp [adoptEntry, hprev, hc]

theorem updateChildNodeS_get_ne (opts : AdoptOptions) (st : AdoptState)
    (i : InternalNode) {q : String} (h : q ≠ i.node.id) :
    getAssoc (updateChildNodeS opts st i).lookup q = getAssoc st.lookup q := by
  rw [updateChildNodeS]
  cases hpid : i.node.parentId with
  | none => rfl
  | some pid =>
      cases hP : getAssoc st.lookup pid with
      | none => simp only [hP]
      | some P =>
          simp only [hP]
          split
          all_goals split
          all_goals
            first
              | exact getAssoc_setAssoc_ne st.lookup _ h
              | rfl

theorem adoptStep_get_ne (opts : AdoptOptions) (prev : List (String × InternalNode))
    (st : AdoptState) (u : UserNode) (hwf : lookupWF prev) {q : String} (h : q ≠ u.id) :
    getAssoc (adoptStep opts prev st u).lookup q = getAssoc st.lookup q := by
  have hid := adoptEntry_node_id opts prev st u hwf
  have hlk := adoptEntry_lookup_eq opts prev st u
  rw [adoptStep]
  by_cases ht : truthyId u.parentId = true
  · rw [if_pos ht]
    rw [updateChildNodeS_get_ne opts _ _ (by rw [hid]; exact h), hlk,
      getAssoc_setAssoc_ne _ _ h]
  · rw [if_neg ht, hlk, getAssoc_setAssoc_ne _ _ h]

theorem foldl_adoptStep_get_ne (opts : AdoptOptions) (prev : List (String × InternalNode))
    (hwf : lookupWF prev) (l : List UserNode) {q : String}
    (h : q ∉ l.map UserNode.id) :
    ∀ st, getAssoc (l.foldl (adoptStep opts prev) st).lookup q = getAssoc st.lookup q := by
  induction l with
  | nil => intro st; rfl
  | cons u rest ih =>
      intro st
      simp only [List.map_cons, List.mem_cons, not_or] at h
      rw [List.foldl_cons, ih h.2, adoptStep_get_ne opts prev st u hwf h.1]

theorem updateChildNodeS_self (opts : AdoptOptions) (st : AdoptState) (i : InternalNode)
    (hself : getAssoc st.lookup i.node.id = some i) :
    ∃ C, getAssoc (updateChildNodeS opts st i).lookup i.node.id = some C ∧
      C.node = i.node ∧ C.userNode = i.userNode ∧ C.handleBounds = i.handleBounds := by
  rw [updateChildNodeS]
  cases hpid : i.node.parentId with
  | none => exact ⟨i, hself, rfl, rfl, rfl⟩
  | some pid =>
      cases hP : getAssoc st.lookup pid with
      | none => simp only [hP]; exact ⟨i, hself, rfl, rfl, rfl⟩
      | some P =>
          simp only [hP]
          split
          all_goals split
          all_goals
            first
              | exact ⟨_, getAssoc_setAssoc_self _ _ _, rfl, rfl, rfl⟩
              | exact ⟨i, hself, rfl, rfl, rfl⟩

/-- C5 (amended).  With checkEquality enabled and the user node
reference-identical to the wrapped node, the adopted entry is the reused
internal node: its spread fields, wrapped user node and handle bounds are
those of the previous entry, and it is exactly the previous object whenever
the node has no (truthy) parentId.  (A parented node may be replaced by a
fresh object when its recomputed absolute position or z differs — see the
counterexample for the original claim.) -/
theorem claim5_amended_reuse (l1 l2 : List UserNode) (u : UserNode)
    (prev : List (String × InternalNode)) (opts : AdoptOptions) (fresh0 : Nat)
    (pn : InternalNode)
    (hwf : lookupWF prev)
    (hnd : (((l1 ++ u :: l2).map UserNode.id)).Nodup)
    (hce : opts.checkEquality = true)
    (hprev : getAssoc prev u.id = some pn)
    (href : u.ref = pn.userNode.ref) :
    ∃ e, getAssoc (adoptUserNodes (l1 ++ u :: l2) prev opts fresh0).lookup u.id = some e ∧
      e.node = pn.node ∧ e.userNode = pn.userNode ∧ e.handleBounds = pn.handleBounds ∧
      (truthyId u.parentId = false → e = pn) := by
  have hu2 : u.id ∉ l2.map UserNode.id := by
    rw [List.map_append, List.map_cons] at hnd
    exact (List.nodup_cons.mp (hnd.of_append_right)).1
  rw [adoptUserNodes, List.foldl_append, List.foldl_cons]
  rw [foldl_adoptStep_get_ne opts prev hwf l2 hu2]
  have hentry : adoptEntry opts prev
      (List.foldl (adoptStep opts prev)
        { lookup := [], parentLookup := [], fresh := fresh0 } l1) u =
      (pn, { List.foldl (adoptStep opts prev)
          { lookup := [], parentLookup := [], fresh := fresh0 } l1 with
        lookup := setAssoc (List.foldl (adoptStep opts prev)
          { lookup := [], parentLookup := [], fresh := fresh0 } l1).lookup u.id pn }) := by
    simp [adoptEntry, hprev, hce, href]
  have hpnid : pn.node.id = u.id := lookupWF_get hwf hprev
  simp only [adoptStep, hentry]
  by_cases ht : truthyId u.parentId = true
  · rw [if_pos ht]
    have hself : getAssoc ({ List.foldl (adoptStep opts prev)
          { lookup := [], parentLookup := [], fresh := fresh0 } l1 with
        lookup := setAssoc (List.foldl (adoptStep opts prev)
          { lookup := [], parentLookup := [], fresh := fresh0 } l1).lookup u.id pn } :
        AdoptState).lookup pn.node.id = some pn := by
      show getAssoc (setAssoc (List.foldl (adoptStep opts prev)
        { lookup := [], parentLookup := [], fresh := fresh0 } l1).lookup u.id pn)
        pn.node.id = some pn
      rw [hpnid, getAssoc_setAssoc_self]
    obtain ⟨C, hC, h1, h2, h3⟩ := updateChildNodeS_self opts _ pn hself
    refine ⟨C, ?_, h1, h2, h3, ?_⟩
    · rw [hpnid] at hC
      exact hC
    · intro hf
      rw [ht] at hf
      exact Bool.noConfusion hf
  · rw [if_neg ht]
    exact ⟨pn, by simp [getAssoc_setAssoc_self], rfl, rfl, rfl, fun _ => rfl⟩

/-! ### C5 counterexample: a reused child still gets a fresh entry when its
parent moved -/

/-- The parent node as first adopted. -/
def cexParentOld : UserNode :=
  { ref := 0, id := "p", position := { px := 0, py := 0 }, parentId := none,
    origin := none, extent := NodeExtent.unset, zIndex := none, selected := none,
    measured := none, width := some 100, height := some 100,
    initialWidth := none, initialHeight := none }

/-- A child of p, kept reference-identical across both adoptions. -/
def cexChild : UserNode :=
  { ref := 1, id := "c", position := { px := 10, py := 10 }, parentId := some "p",
    origin := none, extent := NodeExtent.unset, zIndex := none, selected := none,
    measured := none, width := some 10, height := some 10,
    initialWidth := none, initialHeight := none }

/-- The parent node moved to x = 5 (a new object). -/
def cexParentNew : UserNode :=
  { cexParentOld with ref := 2, position := { px := 5, py := 0 } }

/-- The lookup produced by a first adoption of the old parent and the child. -/
def cexPrev : List (String × InternalNode) :=
  (adoptUserNodes [cexParentOld, cexChild] [] defaultAdoptOptions 100).lookup

/-- The internal node for p in the first adoption. -/
def cexParentI : InternalNode :=
  { ref := 100, node := { cexParentOld with measured := some (normalizedMeasured cexParentOld) },
    absX := 0, absY := 0, handleBounds := false, z := 0, userNode := cexParentOld }

/-- The internal node for c in the first adoption. -/
def cexChildI : InternalNode :=
  { ref := 101, node := { cexChild with measured := some (normalizedMeasured cexChild) },
    absX := 10, absY := 10, handleBounds := false, z := 0, userNode := cexChild }

/-- The internal node for the moved p in the second adoption. -/
def cexParentNewI : InternalNode :=
  { ref := 200, node := { cexParentNew with measured := some (normalizedMeasured cexParentNew) },
    absX := 5, absY := 0, handleBounds := false, z := 0, userNode := cexParentNew }

/-- The fresh internal node the second adoption builds for the reused child. -/
def cexChildNewI : InternalNode := { cexChildI with ref := 201, absX := 15 }

set_option maxHeartbeats 2000000 in
theorem cexPrev_eval : cexPrev = [("p", cexParentI), ("c", cexChildI)] := by
  norm_num [cexPrev, adoptUserNodes, adoptStep, adoptEntry, updateChildNodeS,
    updateParentLookup, truthyId, calculateChildXYZ, calculateZ, clampPosition,
    clampPositionToParent, clampNum, getNodePositionWithOrigin, getNodeDimensionsU,
    normalizedMeasured, getAssoc, setAssoc, defaultAdoptOptions, infiniteExtent,
    cexParentOld, cexChild, cexParentI, cexChildI]
  simp +decide

set_option maxHeartbeats 4000000 in
theorem cexNew_eval :
    (adoptUserNodes [cexParentNew, cexChild] cexPrev defaultAdoptOptions 200).lookup =
      [("p", cexParentNewI), ("c", cexChildNewI)] := by
  norm_num [cexPrev_eval, adoptUserNodes, adoptStep, adoptEntry, updateChildNodeS,
    updateParentLookup, truthyId, calculateChildXYZ, calculateZ, clampPosition,
    clampPositionToParent, clampNum, getNodePositionWithOrigin, getNodeDimensionsU,
    normalizedMeasured, getAssoc, setAssoc, defaultAdoptOptions, infiniteExtent,
    cexParentOld, cexChild, cexParentNew, cexParentI, cexChildI, cexParentNewI,
    cexChildNewI]
  simp +decide
  norm_num

/-- C5 counterexample: re-adopting with the parent moved, the child user node
is reference-identical to the wrapped one and checkEquality is on, yet the
lookup entry for the child is NOT the previous internal node object. -/
theorem claim5_counterexample :
    defaultAdoptOptions.checkEquality = true ∧
    getAssoc cexPrev "c" = some cexChildI ∧
    cexChildI.userNode.ref = cexChild.ref ∧
    getAssoc (adoptUserNodes [cexParentNew, cexChild] cexPrev
      defaultAdoptOptions 200).lookup "c" ≠ getAssoc cexPrev "c" := by
  refine ⟨rfl, by rw [cexPrev_eval]; rfl, rfl, ?_⟩
  rw [cexNew_eval, cexPrev_eval]
  intro h
  have h2 : cexChildNewI = cexChildI := by
    have h3 : getAssoc [("p", cexParentNewI), ("c", cexChildNewI)] "c" =
        some cexChildNewI := rfl
    have h4 : getAssoc [("p", cexParentI), ("c", cexChildI)] "c" = some cexChildI := rfl
    rw [h3, h4] at h
    injection h
  have h5 : cexChildNewI.ref = 201 := rfl
  rw [h2] at h5
  exact absurd h5 (by decide)

theorem claim5_witness :
    lookupWF cexPrev ∧
    ((([cexParentNew] ++ cexChild :: []).map UserNode.id).Nodup) ∧
    defaultAdoptOptions.checkEquality = true ∧
    getAssoc cexPrev cexChild.id = some cexChildI ∧
    cexChild.ref = cexChildI.userNode.ref ∧
    (∃ e, getAssoc (adoptUserNodes ([cexParentNew] ++ cexChild :: []) cexPrev
        defaultAdoptOptions 200).lookup cexChild.id = some e ∧
      e.node = cexChildI.node ∧ e.userNode = cexChildI.userNode ∧
      e.handleBounds = cexChildI.handleBounds ∧
      (truthyId cexChild.parentId = false → e = cexChildI)) := by
  have hwf : lookupWF cexPrev := by
    intro p hp
    rw [cexPrev_eval] at hp
    rcases List.mem_cons.mp hp with h | h
    · subst h; rfl
    · rcases List.mem_cons.mp h with h2 | h2
      · subst h2; rfl
      · simp at h2
  have hget : getAssoc cexPrev cexChild.id = some cexChildI := by
    rw [cexPrev_eval]; rfl
  exact ⟨hwf, by decide, rfl, hget, rfl,
    claim5_amended_reuse [cexParentNew] [] cexChild cexPrev defaultAdoptOptions 200
      cexChildI hwf (by decide) rfl hget rfl⟩

/-! ### C6: the parent-clamp invariant -/

theorem updateChildNodeS_child (opts : AdoptOptions) (st : AdoptState) (i : InternalNode)
    (pid : String) (P : InternalNode)
    (hpid : i.node.parentId = some pid)
    (hP : getAssoc st.lookup pid = some P)
    (hself : getAssoc st.lookup i.node.id = some i)
    (hne : pid ≠ i.node.id) :
    ∃ C, getAssoc (updateChildNodeS opts st i).lookup i.node.id = some C ∧
      C.node = i.node ∧
      C.absX = (calculateChildXYZ i P opts.nodeOrigin opts.nodeExtent
        (if opts.elevateNodesOnSelect then 1000 else 0)).1 ∧
      C.absY = (calculateChildXYZ i P opts.nodeOrigin opts.nodeExtent
        (if opts.elevateNodesOnSelect then 1000 else 0)).2.1 ∧
      getAssoc (updateChildNodeS opts st i).lookup pid = some P := by
  simp only [updateChildNodeS, hpid, hP]
  split
  all_goals split
  all_goals
    first
      | (refine ⟨_, getAssoc_setAssoc_self _ _ _, rfl, rfl, rfl, ?_⟩
         rw [getAssoc_setAssoc_ne _ _ hne]
         exact hP)
      | (rename_i h
         push_neg at h
         exact ⟨i, hself, rfl, h.1.symm, h.2.1.symm, hP⟩)

theorem clampPositionToParent_bounds (q : Pos) (d : Dims) (P : InternalNode)
    (hw : d.dw ≤ (getNodeDimensionsU P.node).dw)
    (hh : d.dh ≤ (getNodeDimensionsU P.node).dh) :
    P.absX ≤ (clampPositionToParent q d P).px ∧
    (clampPositionToParent q d P).px + d.dw ≤ P.absX + (getNodeDimensionsU P.node).dw ∧
    P.absY ≤ (clampPositionToParent q d P).py ∧
    (clampPositionToParent q d P).py + d.dh ≤ P.absY + (getNodeDimensionsU P.node).dh := by
  have hx : (clampPositionToParent q d P).px =
      min (max q.px P.absX) (P.absX + (getNodeDimensionsU P.node).dw - d.dw) := by
    simp [clampPositionToParent, clampPosition, clampNum]
  have hy : (clampPositionToParent q d P).py =
      min (max q.py P.absY) (P.absY + (getNodeDimensionsU P.node).dh - d.dh) := by
    simp [clampPositionToParent, clampPosition, clampNum]
  refine ⟨?_, ?_, ?_, ?_⟩
  · rw [hx]
    exact le_min (le_trans (le_max_right _ _) (le_refl _)) (by linarith)
  · rw [hx]
    have h2 := min_le_right (max q.px P.absX) (P.absX + (getNodeDimensionsU P.node).dw - d.dw)
    linarith
  · rw [hy]
    exact le_min (le_trans (le_max_right _ _) (le_refl _)) (by linarith)
  · rw [hy]
    have h2 := min_le_right (max q.py P.absY) (P.absY + (getNodeDimensionsU P.node).dh - d.dh)
    linarith

/-- C6.  For a node adopted with extent parent whose parent precedes it in the
node array, if the parent's rectangle (per getNodeDimensions on the final
entries) is at least as large as the child's, the child's absolute-position
rectangle after adoption is fully contained in the parent's absolute
rectangle.  The extent/parentId conditions are stated on the adopted entry
(its spread fields; for lookups produced from unmutated user nodes these
coincide with the user node's fields), and an empty-string parent id is
excluded since JavaScript treats it as falsy. -/
theorem claim6_parent_clamp_contained
    (l1 l2 : List UserNode) (c p : UserNode) (pid : String)
    (prev : List (String × InternalNode)) (opts : AdoptOptions) (fresh0 : Nat)
    (P C : InternalNode)
    (hwf : lookupWF prev)
    (hp : p ∈ l1) (hpid : p.id = pid)
    (hnd : ((l1 ++ c :: l2).map UserNode.id).Nodup)
    (hcp : c.parentId = some pid) (hpe : pid ≠ "")
    (hPfin : getAssoc (adoptUserNodes (l1 ++ c :: l2) prev opts fresh0).lookup pid = some P)
    (hCfin : getAssoc (adoptUserNodes (l1 ++ c :: l2) prev opts fresh0).lookup c.id = some C)
    (hCext : C.node.extent = NodeExtent.parent)
    (hCpar : C.node.parentId = some pid)
    (hw : (getNodeDimensionsU C.node).dw ≤ (getNodeDimensionsU P.node).dw)
    (hh : (getNodeDimensionsU C.node).dh ≤ (getNodeDimensionsU P.node).dh) :
    P.absX ≤ C.absX ∧
    C.absX + (getNodeDimensionsU C.node).dw ≤ P.absX + (getNodeDimensionsU P.node).dw ∧
    P.absY ≤ C.absY ∧
    C.absY + (getNodeDimensionsU C.node).dh ≤ P.absY + (getNodeDimensionsU P.node).dh := by
  rw [List.map_append, List.map_cons] at hnd
  have hdisj := List.disjoint_of_nodup_append hnd
  have hpidm : pid ∈ l1.map UserNode.id := hpid ▸ List.mem_map_of_mem UserNode.id hp
  have hpid_ne_c : pid ≠ c.id := by
    intro hcontra
    exact hdisj hpidm (by rw [hcontra]; exact List.mem_cons_self _ _)
  have hpid_notin_l2 : pid ∉ l2.map UserNode.id := fun hm =>
    hdisj hpidm (List.mem_cons_of_mem _ hm)
  have hc_notin_l2 : c.id ∉ l2.map UserNode.id :=
    (List.nodup_cons.mp hnd.of_append_right).1
  rw [adoptUserNodes, List.foldl_append, List.foldl_cons] at hPfin hCfin
  rw [foldl_adoptStep_get_ne opts prev hwf l2 hpid_notin_l2] at hPfin
  rw [foldl_adoptStep_get_ne opts prev hwf l2 hc_notin_l2] at hCfin
  generalize hst : List.foldl (adoptStep opts prev)
    { lookup := [], parentLookup := [], fresh := fresh0 } l1 = stMid at hPfin hCfin
  have truthy : truthyId c.parentId = true := by
    rw [hcp]
    simp [truthyId, hpe]
  simp only [adoptStep] at hPfin hCfin
  rw [if_pos truthy] at hPfin hCfin
  have hids : (adoptEntry opts prev stMid c).1.node.id = c.id :=
    adoptEntry_node_id opts prev stMid c hwf
  have hlk1 : (adoptEntry opts prev stMid c).2.lookup =
      setAssoc stMid.lookup c.id (adoptEntry opts prev stMid c).1 :=
    adoptEntry_lookup_eq opts prev stMid c
  have hself : getAssoc (adoptEntry opts prev stMid c).2.lookup
      (adoptEntry opts prev stMid c).1.node.id = some (adoptEntry opts prev stMid c).1 := by
    rw [hlk1, hids, getAssoc_setAssoc_self]
  have hne2 : pid ≠ (adoptEntry opts prev stMid c).1.node.id := by
    rw [hids]
    exact hpid_ne_c
  have hPat : getAssoc (adoptEntry opts prev stMid c).2.lookup pid = some P := by
    rw [updateChildNodeS_get_ne opts _ _ hne2] at hPfin
    exact hPfin
  obtain ⟨C2, hC2, hC2node, hC2user, hC2hb⟩ :=
    updateChildNodeS_self opts _ _ hself
  have hCC2 : C2 = C := by
    rw [hids, hCfin] at hC2
    injection hC2 with h9
    exact h9.symm
  have hCnode : C.node = (adoptEntry opts prev stMid c).1.node := by
    rw [← hCC2]
    exact hC2node
  have hipar : (adoptEntry opts prev stMid c).1.node.parentId = some pid := by
    rw [← hCnode]
    exact hCpar
  have hiext : (adoptEntry opts prev stMid c).1.node.extent = NodeExtent.parent := by
    rw [← hCnode]
    exact hCext
  obtain ⟨C3, hC3, hC3node, hC3x, hC3y, hC3p⟩ :=
    updateChildNodeS_child opts _ _ pid P hipar hPat hself hne2
  have hCC3 : C3 = C := by
    rw [hids, hCfin] at hC3
    injection hC3 with h9
    exact h9.symm
  rw [hCC3] at hC3x hC3y
  obtain ⟨q, hqx, hqy⟩ : ∃ q : Pos,
      (calculateChildXYZ (adoptEntry opts prev stMid c).1 P opts.nodeOrigin opts.nodeExtent
        (if opts.elevateNodesOnSelect then 1000 else 0)).1 =
        (clampPositionToParent q (getNodeDimensionsU (adoptEntry opts prev stMid c).1.node) P).px ∧
      (calculateChildXYZ (adoptEntry opts prev stMid c).1 P opts.nodeOrigin opts.nodeExtent
        (if opts.elevateNodesOnSelect then 1000 else 0)).2.1 =
        (clampPositionToParent q (getNodeDimensionsU (adoptEntry opts prev stMid c).1.node) P).py := by
    refine ⟨clampPosition
        { px := P.absX + (getNodePositionWithOrigin
            (adoptEntry opts prev stMid c).1.node opts.nodeOrigin).px,
          py := P.absY + (getNodePositionWithOrigin
            (adoptEntry opts prev stMid c).1.node opts.nodeOrigin).py }
        opts.nodeExtent (getNodeDimensionsU (adoptEntry opts prev stMid c).1.node),
      ?_, ?_⟩ <;> simp [calculateChildXYZ, hiext]
  rw [hqx] at hC3x
  rw [hqy] at hC3y
  have hdimsC : getNodeDimensionsU (adoptEntry opts prev stMid c).1.node =
      getNodeDimensionsU C.node := by rw [hCnode]
  rw [hdimsC] at hC3x hC3y
  obtain ⟨b1, b2, b3, b4⟩ :=
    clampPositionToParent_bounds q (getNodeDimensionsU C.node) P hw hh
  rw [← hC3x] at b1 b2
  rw [← hC3y] at b3 b4
  exact ⟨b1, b2, b3, b4⟩

/-- A 100 by 100 parent at the canvas origin. -/
def c6Parent : UserNode :=
  { ref := 0, id := "p", position := { px := 0, py := 0 }, parentId := none,
    origin := none, extent := NodeExtent.unset, zIndex := none, selected := none,
    measured := none, width := some 100, height := some 100,
    initialWidth := none, initialHeight := none }

/-- A 10 by 10 child with extent parent, positioned partly outside the parent. -/
def c6Child : UserNode :=
  { ref := 1, id := "c", position := { px := 95, py := -5 }, parentId := some "p",
    origin := none, extent := NodeExtent.parent, zIndex := none, selected := none,
    measured := none, width := some 10, height := some 10,
    initialWidth := none, initialHeight := none }

/-- The adopted internal node of the parent. -/
def c6ParentI : InternalNode :=
  { ref := 0, node := { c6Parent with measured := some (normalizedMeasured c6Parent) },
    absX := 0, absY := 0, handleBounds := false, z := 0, userNode := c6Parent }

/-- The adopted internal node of the child: clamped to (90, 0) inside the
parent rectangle. -/
def c6ChildI : InternalNode :=
  { ref := 2, node := { c6Child with measured := some (normalizedMeasured c6Child) },
    absX := 90, absY := 0, handleBounds := false, z := 0, userNode := c6Child }

set_option maxHeartbeats 2000000 in
theorem c6_eval :
    (adoptUserNodes ([c6Parent] ++ c6Child :: []) [] defaultAdoptOptions 0).lookup =
      [("p", c6ParentI), ("c", c6ChildI)] := by
  norm_num [adoptUserNodes, adoptStep, adoptEntry, updateChildNodeS,
    updateParentLookup, truthyId, calculateChildXYZ, calculateZ, clampPosition,
    clampPositionToParent, clampNum, getNodePositionWithOrigin, getNodeDimensionsU,
    normalizedMeasured, getAssoc, setAssoc, defaultAdoptOptions, infiniteExtent,
    c6Parent, c6Child, c6ParentI, c6ChildI]
  simp +decide

theorem claim6_witness :
    lookupWF ([] : List (String × InternalNode)) ∧
    getAssoc (adoptUserNodes ([c6Parent] ++ c6Child :: []) [] defaultAdoptOptions 0).lookup
      "p" = some c6ParentI ∧
    getAssoc (adoptUserNodes ([c6Parent] ++ c6Child :: []) [] defaultAdoptOptions 0).lookup
      c6Child.id = some c6ChildI ∧
    c6ChildI.node.extent = NodeExtent.parent ∧
    (getNodeDimensionsU c6ChildI.node).dw ≤ (getNodeDimensionsU c6ParentI.node).dw ∧
    (getNodeDimensionsU c6ChildI.node).dh ≤ (getNodeDimensionsU c6ParentI.node).dh ∧
    (c6ParentI.absX ≤ c6ChildI.absX ∧
     c6ChildI.absX + (getNodeDimensionsU c6ChildI.node).dw ≤
       c6ParentI.absX + (getNodeDimensionsU c6ParentI.node).dw ∧
     c6ParentI.absY ≤ c6ChildI.absY ∧
     c6ChildI.absY + (getNodeDimensionsU c6ChildI.node).dh ≤
       c6ParentI.absY + (getNodeDimensionsU c6ParentI.node).dh) := by
  have hwf : lookupWF ([] : List (String × InternalNode)) := by
    intro q hq
    simp at hq
  have hP : getAssoc (adoptUserNodes ([c6Parent] ++ c6Child :: []) []
      defaultAdoptOptions 0).lookup "p" = some c6ParentI := by
    rw [c6_eval]
    rfl
  have hC : getAssoc (adoptUserNodes ([c6Parent] ++ c6Child :: []) []
      defaultAdoptOptions 0).lookup c6Child.id = some c6ChildI := by
    rw [c6_eval]
    rfl
  refine ⟨hwf, hP, hC, rfl, by decide, by decide, ?_⟩
  exact claim6_parent_clamp_contained [c6Parent] [] c6Child c6Parent "p" []
    defaultAdoptOptions 0 c6ParentI c6ChildI hwf (by simp) rfl (by decide) rfl
    (by decide) hP hC rfl rfl (by decide) (by decide)

/-! ### C9: clampPosition formula and degenerate extents -/

/-- C9.  clampPosition is total on rational inputs; with finite bounds each
returned coordinate equals min(max(value, lowerBound), upperBound − size), and
for a degenerate extent whose lower bound exceeds upperBound − size the result
is deterministically upperBound − size (the upper clamp is applied last). -/
theorem claim9_clampPosition_formula (p : Pos) (d : Dims) (lx ly ux uy : Rat) :
    clampPosition p { lox := some lx, loy := some ly, hix := some ux, hiy := some uy } d =
      { px := min (max p.px lx) (ux - d.dw), py := min (max p.py ly) (uy - d.dh) } ∧
    (lx > ux - d.dw →
      (clampPosition p { lox := some lx, loy := some ly, hix := some ux, hiy := some uy }
        d).px = ux - d.dw) ∧
    (ly > uy - d.dh →
      (clampPosition p { lox := some lx, loy := some ly, hix := some ux, hiy := some uy }
        d).py = uy - d.dh) := by
  have h1 : clampPosition p
      { lox := some lx, loy := some ly, hix := some ux, hiy := some uy } d =
      { px := min (max p.px lx) (ux - d.dw), py := min (max p.py ly) (uy - d.dh) } := by
    simp [clampPosition, clampNum]
  refine ⟨h1, ?_, ?_⟩
  · intro hdeg
    rw [h1]
    exact min_eq_right (le_trans hdeg.le (le_max_right p.px lx))
  · intro hdeg
    rw [h1]
    exact min_eq_right (le_trans hdeg.le (le_max_right p.py ly))

theorem claim9_witness :
    ((50 : Rat) > 40 - 10 ∧ (60 : Rat) > 45 - 10) ∧
    clampPosition { px := 5, py := 5 }
      { lox := some 50, loy := some 60, hix := some 40, hiy := some 45 }
      { dw := 10, dh := 10 } =
      { px := min (max (5 : Rat) 50) (40 - 10), py := min (max (5 : Rat) 60) (45 - 10) } ∧
    (clampPosition { px := 5, py := 5 }
      { lox := some 50, loy := some 60, hix := some 40, hiy := some 45 }
      { dw := 10, dh := 10 }).px = 40 - 10 ∧
    (clampPosition { px := 5, py := 5 }
      { lox := some 50, loy := some 60, hix := some 40, hiy := some 45 }
      { dw := 10, dh := 10 }).py = 45 - 10 := by
  have h := claim9_clampPosition_formula { px := 5, py := 5 } { dw := 10, dh := 10 }
    50 60 40 45
  exact ⟨⟨by norm_num, by norm_num⟩, h.1, h.2.1 (by norm_num), h.2.2 (by norm_num)⟩

/-! ### C8: the batching queue (useQueue / BatchProvider)

The queue object itself (createQueue: get / reset / push with a serial bump)
and the flush body of the layout effect are from the source.  That the layout
effect runs exactly once after all synchronous pushes of a tick is React
scheduling behaviour outside this repository; `flushTick` below encodes it. -/

/-- A queued payload: a whole new collection or a function of the current one
(setNodes / setEdges / addNodes style updates). -/
inductive QueueItem (α : Type) where
  | value (v : α)
  | func (f : α → α)

/-- The queue state created by createQueue: the pending items plus the
monotonically increasing serial counter (a BigInt in the source). -/
structure BatchQueue (α : Type) where
  items : List (QueueItem α)
  serial : Nat

/-- `queue.push(item)`: append and bump the dirty serial. -/
def queuePush {α : Type} (q : BatchQueue α) (p : QueueItem α) : BatchQueue α :=
  { items := q.items ++ [p], serial := q.serial + 1 }

/-- `queue.reset()`. -/
def queueReset {α : Type} (q : BatchQueue α) : BatchQueue α :=
  { q with items := [] }

/-- Modelled from the spec: the layout-effect flush of useQueue.  The effect
body (read the queue, run it when nonempty, then reset) is from the source;
that React runs this effect exactly once before the next paint after all
synchronous pushes of a tick — not per push — is framework behaviour outside
src, specified in section 4.4 of the spec.  Returns the payload list handed to
the single `runQueue` call together with the queue afterwards. -/
def flushTick {α : Type} (q : BatchQueue α) : List (QueueItem α) × BatchQueue α :=
  if q.items.isEmpty then ([], q) else (q.items, queueReset q)

/-- The nodeQueueHandler accumulation loop: each functional payload receives
the result of the previous one, a plain payload replaces the accumulator. -/
def runNodeQueue {α : Type} (payloads : List (QueueItem α)) (current : α) : α :=
  payloads.foldl
    (fun next p =>
      match p with
      | QueueItem.func f => f next
      | QueueItem.value v => v)
    current

/-- C8.  Three synchronous pushes of functional payloads within one tick feed
a single flush that receives all three payloads in call order; the handler
applies each to the result of the previous one starting from the current
collection, and the queue is empty before the next accumulation begins. -/
theorem claim8_batching_collapse {α : Type} (s : Nat) (f g h : α → α) (nodes : α) :
    (flushTick (queuePush (queuePush (queuePush { items := [], serial := s }
        (QueueItem.func f)) (QueueItem.func g)) (QueueItem.func h))).1 =
      [QueueItem.func f, QueueItem.func g, QueueItem.func h] ∧
    runNodeQueue (flushTick (queuePush (queuePush (queuePush { items := [], serial := s }
        (QueueItem.func f)) (QueueItem.func g)) (QueueItem.func h))).1 nodes =
      h (g (f nodes)) ∧
    (flushTick (queuePush (queuePush (queuePush { items := [], serial := s }
        (QueueItem.func f)) (QueueItem.func g)) (QueueItem.func h))).2.items = [] ∧
    (flushTick (queuePush (queuePush (queuePush { items := [], serial := s }
        (QueueItem.func f)) (QueueItem.func g)) (QueueItem.func h))).2.serial = s + 3 :=
  ⟨rfl, rfl, rfl, rfl⟩

/-! ### C7: getDimensionsAfterResize (xyresizer/utils.ts) -/

/-- Snapshot taken at resize start. -/
structure StartValues where
  x : Rat
  y : Rat
  width : Rat
  height : Rat
  pointerX : Rat
  pointerY : Rat
  aspect : Rat
deriving DecidableEq

/-- getControlDirection output for the active handle. -/
structure ControlDirection where
  isHorizontal : Bool
  isVertical : Bool
  affectsX : Bool
  affectsY : Bool
deriving DecidableEq

/-- The snapped pointer position. -/
structure PointerPosition where
  xSnapped : Rat
  ySnapped : Rat
deriving DecidableEq

/-- Min/max size boundaries. -/
structure Boundaries where
  minWidth : Rat
  maxWidth : Rat
  minHeight : Rat
  maxHeight : Rat
deriving DecidableEq

/-- The x/y/width/height a resize frame produces. -/
structure ResizeResult where
  width : Rat
  height : Rat
  x : Rat
  y : Rat
deriving DecidableEq

/-- `getLowerExtentClamp(lowerExtent, lowerBound) = max(0, lowerBound −
lowerExtent)`; an infinite lower bound never clamps. -/
def getLowerExtentClamp (lowerExtent : Rat) (lowerBound : Option Rat) : Rat :=
  match lowerBound with
  | some b => max 0 (b - lowerExtent)
  | none => 0

/-- `getUpperExtentClamp(upperExtent, upperBound) = max(0, upperExtent −
upperBound)`; an infinite upper bound never clamps. -/
def getUpperExtentClamp (upperExtent : Rat) (upperBound : Option Rat) : Rat :=
  match upperBound with
  | some b => max 0 (upperExtent - b)
  | none => 0

/-- `getSizeClamp(size, minSize, maxSize) = max(0, minSize − size, size −
maxSize)`. -/
def getSizeClamp (size minSize maxSize : Rat) : Rat :=
  max 0 (max (minSize - size) (size - maxSize))

/-- The xor helper of the source. -/
def xorB (a b : Bool) : Bool := if a then !b else b

/-- `Math.floor` on a rational. -/
def jsFloor (q : Rat) : Rat := (⌊q⌋ : Rat)

/-- `getDimensionsAfterResize(startValues, controlDirection, pointerPosition,
boundaries, keepAspectRatio, nodeOrigin, extent, childExtent)`: determine how
much each constraint (min/max size, extent, child extent, and their
aspect-coupled counterparts) would need to shrink the raw pointer deltas,
apply the largest such clamp, re-derive the passive axis when the aspect is
locked, and recompute x/y/width/height. -/
def getDimensionsAfterResize (startValues : StartValues)
    (controlDirection : ControlDirection) (pointerPosition : PointerPosition)
    (boundaries : Boundaries) (keepAspect : Bool) (nodeOrigin : Rat × Rat)
    (extent : Option OptExtent) (childExtent : Option OptExtent) : ResizeResult :=
  let affectsX := controlDirection.affectsX
  let affectsY := controlDirection.affectsY
  let isHorizontal := controlDirection.isHorizontal
  let isVertical := controlDirection.isVertical
  let isDiagonal := isHorizontal && isVertical
  let startX := startValues.x
  let startY := startValues.y
  let startWidth := startValues.width
  let startHeight := startValues.height
  let aspect := startValues.aspect
  let distX := jsFloor (if isHorizontal then pointerPosition.xSnapped - startValues.pointerX else 0)
  let distY := jsFloor (if isVertical then pointerPosition.ySnapped - startValues.pointerY else 0)
  let newWidth := startWidth + (if affectsX then -distX else distX)
  let newHeight := startHeight + (if affectsY then -distY else distY)
  let originOffsetX := -nodeOrigin.1 * startWidth
  let originOffsetY := -nodeOrigin.2 * startHeight
  let clampX0 := getSizeClamp newWidth boundaries.minWidth boundaries.maxWidth
  let clampY0 := getSizeClamp newHeight boundaries.minHeight boundaries.maxHeight
  let clampX1 := match extent with
    | none => clampX0
    | some e =>
        max clampX0
          (if affectsX = true ∧ distX < 0 then
            getLowerExtentClamp (startX + distX + originOffsetX) e.lox
          else if affectsX = false ∧ distX > 0 then
            getUpperExtentClamp (startX + newWidth + originOffsetX) e.hix
          else 0)
  let clampY1 := match extent with
    | none => clampY0
    | some e =>
        max clampY0
          (if affectsY = true ∧ distY < 0 then
            getLowerExtentClamp (startY + distY + originOffsetY) e.loy
          else if affectsY = false ∧ distY > 0 then
            getUpperExtentClamp (startY + newHeight + originOffsetY) e.hiy
          else 0)
  let clampX2 := match childExtent with
    | none => clampX1
    | some ce =>
        max clampX1
          (if affectsX = true ∧ distX > 0 then
            getUpperExtentClamp (startX + distX) ce.lox
          else if affectsX = false ∧ distX < 0 then
            getLowerExtentClamp (startX + newWidth) ce.hix
          else 0)
  let clampY2 := match childExtent with
    | none => clampY1
    | some ce =>
        max clampY1
          (if affectsY = true ∧ distY > 0 then
            getUpperExtentClamp (startY + distY) ce.loy
          else if affectsY = false ∧ distY < 0 then
            getLowerExtentClamp (startY + newHeight) ce.hiy
          else 0)
  let clampX3 :=
    if keepAspect = true ∧ isHorizontal = true then
      let cx := max clampX2
        (getSizeClamp (newWidth / aspect) boundaries.minHeight boundaries.maxHeight * aspect)
      let cx := match extent with
        | none => cx
        | some e =>
            max cx
              (if (affectsX = false ∧ affectsY = false) ∨
                  (affectsX = true ∧ affectsY = false ∧ isDiagonal = true) then
                getUpperExtentClamp (startY + originOffsetY + newWidth / aspect) e.hiy * aspect
              else
                getLowerExtentClamp
                  (startY + originOffsetY + (if affectsX then distX else -distX) / aspect)
                  e.loy * aspect)
      match childExtent with
      | none => cx
      | some ce =>
          max cx
            (if (affectsX = false ∧ affectsY = false) ∨
                (affectsX = true ∧ affectsY = false ∧ isDiagonal = true) then
              getLowerExtentClamp (startY + newWidth / aspect) ce.hiy * aspect
            else
              getUpperExtentClamp (startY + (if affectsX then distX else -distX) / aspect)
                ce.loy * aspect)
    else clampX2
  let clampY3 :=
    if keepAspect = true ∧ isVertical = true then
      let cy := max clampY2
        (getSizeClamp (newHeight * aspect) boundaries.minWidth boundaries.maxWidth / aspect)
      let cy := match extent with
        | none => cy
        | some e =>
            max cy
              (if (affectsX = false ∧ affectsY = false) ∨
                  (affectsY = true ∧ affectsX = false ∧ isDiagonal = true) then
                getUpperExtentClamp (startX + newHeight * aspect + originOffsetX) e.hix / aspect
              else
                getLowerExtentClamp
                  (startX + (if affectsY then distY else -distY) * aspect + originOffsetX)
                  e.lox / aspect)
      match childExtent with
      | none => cy
      | some ce =>
          max cy
            (if (affectsX = false ∧ affectsY = false) ∨
                (affectsY = true ∧ affectsX = false ∧ isDiagonal = true) then
              getLowerExtentClamp (startX + newHeight * aspect) ce.hix / aspect
            else
              getUpperExtentClamp (startX + (if affectsY then distY else -distY) * aspect)
                ce.lox / aspect)
    else clampY2
  let distY1 := distY + (if distY < 0 then clampY3 else -clampY3)
  let distX1 := distX + (if distX < 0 then clampX3 else -clampX3)
  let next : Rat × Rat × Bool × Bool :=
    if keepAspect then
      if isDiagonal then
        if newWidth > newHeight * aspect then
          (distX1, (if xorB affectsX affectsY then -distX1 else distX1) / aspect,
            affectsX, affectsY)
        else
          ((if xorB affectsX affectsY then -distY1 else distY1) * aspect, distY1,
            affectsX, affectsY)
      else
        if isHorizontal then (distX1, distX1 / aspect, affectsX, affectsX)
        else (distY1 * aspect, distY1, affectsY, affectsY)
    else (distX1, distY1, affectsX, affectsY)
  let distX2 := next.1
  let distY2 := next.2.1
  let affectsX2 := next.2.2.1
  let affectsY2 := next.2.2.2
  let x := if affectsX2 then startX + distX2 else startX
  let y := if affectsY2 then startY + distY2 else startY
  { width := startWidth + (if affectsX2 then -distX2 else distX2),
    height := startHeight + (if affectsY2 then -distY2 else distY2),
    x := nodeOrigin.1 * distX2 * (if !affectsX2 then 1 else -1) + x,
    y := nodeOrigin.2 * distY2 * (if !affectsY2 then 1 else -1) + y }

/-- C7.  A bottom-right (diagonal) aspect-locked resize of a 200 by 100 node
with pointer delta (50, 0), no extent constraints, non-binding min/max bounds
and origin (0,0) scales both axes by the same proportion: width 250 and
height 125. -/
theorem claim7_aspect_resize :
    getDimensionsAfterResize
      { x := 0, y := 0, width := 200, height := 100, pointerX := 0, pointerY := 0,
        aspect := 2 }
      { isHorizontal := true, isVertical := true, affectsX := false, affectsY := false }
      { xSnapped := 50, ySnapped := 0 }
      { minWidth := 0, maxWidth := 10000, minHeight := 0, maxHeight := 10000 }
      true (0, 0) none none =
      { width := 250, height := 125, x := 0, y := 0 } := by
  norm_num [getDimensionsAfterResize, jsFloor, getSizeClamp, getLowerExtentClamp,
    getUpperExtentClamp, xorB, Int.floor_intCast]

/-! ### C10: getNodesBounds / getInternalNodesBounds (bounds union)

JavaScript numbers including the infinities used as fold seeds are modelled by
`XRat`; `nan` models IEEE NaN and propagates through every operation the way
Math.min/Math.max and subtraction do. -/

/-- An extended rational: minus infinity, finite, plus infinity, or NaN. -/
inductive XRat where
  | ninf
  | fin (q : Rat)
  | inf
  | nan
deriving DecidableEq

/-- Math.min on extended values (NaN propagates). -/
def xmin : XRat → XRat → XRat
  | XRat.nan, _ => XRat.nan
  | _, XRat.nan => XRat.nan
  | XRat.ninf, _ => XRat.ninf
  | _, XRat.ninf => XRat.ninf
  | XRat.inf, b => b
  | a, XRat.inf => a
  | XRat.fin a, XRat.fin b => XRat.fin (min a b)

/-- Math.max on extended values (NaN propagates). -/
def xmax : XRat → XRat → XRat
  | XRat.nan, _ => XRat.nan
  | _, XRat.nan => XRat.nan
  | XRat.inf, _ => XRat.inf
  | _, XRat.inf => XRat.inf
  | XRat.ninf, b => b
  | a, XRat.ninf => a
  | XRat.fin a, XRat.fin b => XRat.fin (max a b)

/-- Subtraction on extended values; same-sign infinities give NaN. -/
def xsub : XRat → XRat → XRat
  | XRat.nan, _ => XRat.nan
  | _, XRat.nan => XRat.nan
  | XRat.inf, XRat.inf => XRat.nan
  | XRat.ninf, XRat.ninf => XRat.nan
  | XRat.inf, _ => XRat.inf
  | XRat.ninf, _ => XRat.ninf
  | XRat.fin _, XRat.inf => XRat.ninf
  | XRat.fin _, XRat.ninf => XRat.inf
  | XRat.fin a, XRat.fin b => XRat.fin (a - b)

/-- A Box: two corner points. -/
structure XBox where
  x : XRat
  y : XRat
  x2 : XRat
  y2 : XRat
deriving DecidableEq

/-- A Rect: corner plus extent. -/
structure XRect where
  x : XRat
  y : XRat
  width : XRat
  height : XRat
deriving DecidableEq

/-- getBoundsOfBoxes: the smallest box containing both. -/
def getBoundsOfBoxes (b1 b2 : XBox) : XBox :=
  { x := xmin b1.x b2.x, y := xmin b1.y b2.y,
    x2 := xmax b1.x2 b2.x2, y2 := xmax b1.y2 b2.y2 }

/-- boxToRect. -/
def boxToRect (b : XBox) : XRect :=
  { x := b.x, y := b.y, width := xsub b.x2 b.x, height := xsub b.y2 b.y }

/-- nodeToBox on an internal node: absolute position plus the dimension chain. -/
def nodeToBoxI (n : InternalNode) : XBox :=
  let d := getNodeDimensionsU n.node
  { x := XRat.fin n.absX, y := XRat.fin n.absY,
    x2 := XRat.fin (n.absX + d.dw), y2 := XRat.fin (n.absY + d.dh) }

/-- nodeToBox on a plain user node: origin-adjusted position plus dimensions. -/
def nodeToBoxU (n : UserNode) (nodeOrigin : Rat × Rat) : XBox :=
  let p := getNodePositionWithOrigin n nodeOrigin
  let d := getNodeDimensionsU n
  { x := XRat.fin p.px, y := XRat.fin p.py,
    x2 := XRat.fin (p.px + d.dw), y2 := XRat.fin (p.py + d.dh) }

/-- The fold seed box with infinite corners. -/
def infBox : XBox := { x := XRat.inf, y := XRat.inf, x2 := XRat.ninf, y2 := XRat.ninf }

/-- The zero box used for an unresolved node. -/
def zeroBox : XBox :=
  { x := XRat.fin 0, y := XRat.fin 0, x2 := XRat.fin 0, y2 := XRat.fin 0 }

/-- The zero rectangle returned for empty inputs. -/
def zeroXRect : XRect :=
  { x := XRat.fin 0, y := XRat.fin 0, width := XRat.fin 0, height := XRat.fin 0 }

/-- getInternalNodesBounds(nodeLookup, params): the zero rect for an empty
lookup, else the fold of every node box passing the filter over the infinite
seed box. -/
def getInternalNodesBounds (nodeLookup : List (String × InternalNode))
    (filterFn : Option (InternalNode → Bool)) : XRect :=
  if nodeLookup.isEmpty then zeroXRect
  else
    boxToRect (nodeLookup.foldl
      (fun box kv =>
        if (match filterFn with
            | none => true
            | some f => f kv.2) = true then
          getBoundsOfBoxes box (nodeToBoxI kv.2)
        else box)
      infBox)

/-- A member of the mixed node array getNodesBounds accepts: a user node, an
internal node, or a bare id string. -/
inductive NodeRef where
  | user (n : UserNode)
  | internal (i : InternalNode)
  | ident (s : String)

/-- getNodesBounds(nodes, params): the zero rect for an empty array, else the
fold of each resolved node box (the zero box when a node cannot be resolved)
over the infinite seed box. -/
def getNodesBounds (nodes : List NodeRef) (nodeOrigin : Rat × Rat)
    (nodeLookup : Option (List (String × InternalNode))) : XRect :=
  if nodes.isEmpty then zeroXRect
  else
    boxToRect (nodes.foldl
      (fun box nr =>
        let currBox : Option XBox :=
          match nodeLookup with
          | none =>
              match nr with
              | NodeRef.ident _ => none
              | NodeRef.user n => some (nodeToBoxU n nodeOrigin)
              | NodeRef.internal i => some (nodeToBoxI i)
          | some lk =>
              match nr with
              | NodeRef.ident s => (getAssoc lk s).map nodeToBoxI
              | NodeRef.internal i => some (nodeToBoxI i)
              | NodeRef.user n => (getAssoc lk n.id).map nodeToBoxI
        getBoundsOfBoxes box (currBox.getD zeroBox))
      infBox)

/-- C10 counterexample: a nonempty lookup whose filter matches no node does
NOT give the zero rectangle — the infinite seed box survives the fold and the
result has infinite coordinates. -/
theorem claim10_counterexample :
    getInternalNodesBounds [("p", c6ParentI)] (some fun _ => false) =
      { x := XRat.inf, y := XRat.inf, width := XRat.ninf, height := XRat.ninf } ∧
    getInternalNodesBounds [("p", c6ParentI)] (some fun _ => false) ≠ zeroXRect := by
  refine ⟨rfl, by decide⟩

/-- C10 (amended).  For empty inputs both bounds functions return the zero
rectangle; but for a nonempty lookup whose filter matches no node,
getInternalNodesBounds returns the infinite sentinel rectangle
(x = y = +infinity, width = height = −infinity), not the zero rectangle. -/
theorem claim10_amended_empty_bounds (nodeOrigin : Rat × Rat)
    (nodeLookup0 : Option (List (String × InternalNode)))
    (filterFn : Option (InternalNode → Bool))
    (lookup : List (String × InternalNode)) (f : InternalNode → Bool) :
    getNodesBounds [] nodeOrigin nodeLookup0 = zeroXRect ∧
    getInternalNodesBounds [] filterFn = zeroXRect ∧
    (lookup ≠ [] → (∀ p ∈ lookup, f p.2 = false) →
      getInternalNodesBounds lookup (some f) =
        { x := XRat.inf, y := XRat.inf, width := XRat.ninf, height := XRat.ninf }) := by
  refine ⟨rfl, rfl, ?_⟩
  intro hne hf
  have hfold : ∀ (l : List (String × InternalNode)), (∀ p ∈ l, f p.2 = false) →
      ∀ (b : XBox), l.foldl
        (fun box kv =>
          if (match some f with
              | none => true
              | some f2 => f2 kv.2) = true then
            getBoundsOfBoxes box (nodeToBoxI kv.2)
          else box) b = b := by
    intro l
    induction l with
    | nil => intro _ b; rfl
    | cons kv rest ih =>
        intro hfl b
        rw [List.foldl_cons]
        rw [if_neg (by simp [hfl kv (List.mem_cons_self _ _)])]
        exact ih (fun p hp => hfl p (List.mem_cons_of_mem _ hp)) b
  rw [getInternalNodesBounds, if_neg (by simpa using hne), hfold lookup hf]
  rfl

theorem claim10_witness :
    (([("p", c6ParentI)] : List (String × InternalNode)) ≠ [] ∧
      (∀ p ∈ ([("p", c6ParentI)] : List (String × InternalNode)),
        (fun (_ : InternalNode) => false) p.2 = false)) ∧
    getNodesBounds [] (0, 0) none = zeroXRect ∧
    getInternalNodesBounds [] none = zeroXRect ∧
    getInternalNodesBounds [("p", c6ParentI)] (some fun _ => false) =
      { x := XRat.inf, y := XRat.inf, width := XRat.ninf, height := XRat.ninf } := by
  have h := claim10_amended_empty_bounds (0, 0) none none [("p", c6ParentI)]
    (fun _ => false)
  exact ⟨⟨by decide, by decide⟩, h.1, h.2.1, h.2.2 (by decide) (by decide)⟩

end XYFlow
